import Mathlib

/-!
Shallow embedding of pycabfile, a cabinet-style archive codec with a
zipfile-like interface.

The package's core codec module is not part of the source tree under
verification (only the demo script `example.py` and the legacy test
redirector `test_pycabfile.py` are), so the codec itself — checksum
unit, data-block codec, table codec and archive handle — is modelled
from the specification's sections 3, 4, 6 and 7, with the demo script
fixing the concrete API spellings.  The legacy test script is embedded
directly from `src/test_pycabfile.py`.

Archive contents are byte lists: lists of naturals, each below 256
wherever that matters.
-/

/-- Byte strings are lists of naturals (each < 256 where relevant). -/
abbrev Bytes := List Nat

/-- Little-endian encoding of a 16-bit field. -/
def le16 (n : Nat) : Bytes := [n % 256, n / 256 % 256]

/-- Little-endian encoding of a 32-bit field. -/
def le32 (n : Nat) : Bytes :=
  [n % 256, n / 256 % 256, n / 65536 % 256, n / 16777216 % 256]

/-- Little-endian decoding of (up to) two bytes; missing bytes read as 0. -/
def dec16 (l : Bytes) : Nat := l.getD 0 0 + 256 * l.getD 1 0

/-- Little-endian decoding of (up to) four bytes; missing bytes read as 0. -/
def dec32 (l : Bytes) : Nat :=
  l.getD 0 0 + 256 * l.getD 1 0 + 65536 * l.getD 2 0 + 16777216 * l.getD 3 0

/-- The sublist of `l` of length `len` starting at byte offset `off`. -/
def extract (l : Bytes) (off len : Nat) : Bytes := (l.drop off).take len

/-- Read a little-endian u16 at byte offset `off`. -/
def rd16 (l : Bytes) (off : Nat) : Nat := dec16 (extract l off 2)

/-- Read a little-endian u32 at byte offset `off`. -/
def rd32 (l : Bytes) (off : Nat) : Nat := dec32 (extract l off 4)

/-- Error taxonomy of spec section 7. -/
inductive CabError where
  | formatError
  | integrityError
  | notFoundError
  | modeError
deriving DecidableEq

/-- Modelled from the spec (section 4.1, Checksum Unit): the checksum
loop folds the compressed byte stream in 4-byte little-endian groups by
repeated XOR accumulation; a trailing partial group is zero-padded. -/
def csumFold (acc : Nat) : Bytes → Nat
  | [] => acc
  | [b0] => acc ^^^ b0
  | [b0, b1] => acc ^^^ (b0 + 256 * b1)
  | [b0, b1, b2] => acc ^^^ (b0 + 256 * b1 + 65536 * b2)
  | b0 :: b1 :: b2 :: b3 :: rest =>
      csumFold (acc ^^^ (b0 + 256 * b1 + 65536 * b2 + 16777216 * b3)) rest

/-- Modelled from the spec (section 4.1, Checksum Unit):
`compute(compressed_bytes, uncompressed_size, compressed_size)` — the
4-byte XOR fold of the stream, XORed with the little-endian encoding of
the two 16-bit size fields `(uncompressed_size, compressed_size)`. -/
def compute (data : Bytes) (uncompSize compSize : Nat) : Nat :=
  csumFold 0 data ^^^ dec32 (le16 uncompSize ++ le16 compSize)

/-- Compression method tag: stored (no compression). -/
def CAB_STORED : Nat := 0

/-- Compression method tag: the chained deflate-style method. -/
def CAB_COMPRESSED : Nat := 1

/-- Maximum uncompressed size of one data block (spec section 4.2). -/
def MAX_BLOCK : Nat := 32768

/-- A per-folder chained (de)compressor: both directions take the
rolling history window of previously processed uncompressed bytes. -/
structure ChainCodec where
  comp : Bytes → Bytes → Bytes
  decomp : Bytes → Bytes → Bytes

/-- Stored method: compressed bytes equal uncompressed bytes. -/
def storedCodec : ChainCodec := ⟨fun _ d => d, fun _ c => c⟩

/-- Modelled from the spec: per-byte coder of the stand-in for the
chained deflate-style method, whose exact bitstream the spec leaves to
the underlying deflate engine.  Each output byte is the difference of
the plain byte and the previous plain byte (seeded from the history
window), so the coder is chained exactly as section 4.2 describes:
decoding must replay in order with the same history. -/
def deltaEnc (p : Nat) : Bytes → Bytes
  | [] => []
  | b :: bs => (b + 256 - p % 256) % 256 :: deltaEnc b bs

/-- Inverse of `deltaEnc` given the same seed byte. -/
def deltaDec (p : Nat) : Bytes → Bytes
  | [] => []
  | c :: cs => (c + p) % 256 :: deltaDec ((c + p) % 256) cs

/-- The chained method: seeded from the tail of the history window. -/
def mszipCodec : ChainCodec :=
  ⟨fun h d => deltaEnc (h.getLastD 0) d, fun h c => deltaDec (h.getLastD 0) c⟩

/-- Dispatch a folder's compression method tag to its codec. -/
def codecOf (t : Nat) : ChainCodec :=
  if t = CAB_COMPRESSED then mszipCodec else storedCodec

/-- The sliding-history window: the last `n` bytes of `l`. -/
def lastN (n : Nat) (l : Bytes) : Bytes := l.drop (l.length - n)

/-- One data block record (spec sections 3 and 6): checksum over the
compressed payload plus the two size fields, the sizes, the payload. -/
structure CFDATA where
  checksum : Nat
  compSize : Nat
  uncompSize : Nat
  payload : Bytes
deriving DecidableEq

/-- Modelled from the spec (section 4.2, write path): block `i` of a
folder's uncompressed stream covers bytes `[i*32KiB, (i+1)*32KiB)`; the
compressor's history window is the up-to-32KiB tail of the preceding
uncompressed bytes of the same folder; the block record carries the
checksum over the compressed payload and both sizes. -/
def mkBlock (codec : ChainCodec) (stream : Bytes) (i : Nat) : CFDATA :=
  let u := extract stream (i * MAX_BLOCK) MAX_BLOCK
  let c := codec.comp (lastN MAX_BLOCK (stream.take (i * MAX_BLOCK))) u
  ⟨compute c u.length c.length, c.length, u.length, c⟩

/-- Number of blocks an `n`-byte folder stream splits into. -/
def numBlocks (n : Nat) : Nat := (n + MAX_BLOCK - 1) / MAX_BLOCK

/-- Modelled from the spec (section 4.2): split a folder's uncompressed
stream into blocks of at most `MAX_BLOCK` bytes, in order. -/
def mkBlocks (codec : ChainCodec) (stream : Bytes) : List CFDATA :=
  (List.range (numBlocks stream.length)).map (mkBlock codec stream)

/-- Data block layout (spec section 6): checksum u32, compressed size
u16, uncompressed size u16, then the compressed payload. -/
def serializeBlock (b : CFDATA) : Bytes :=
  le32 b.checksum ++ le16 b.compSize ++ le16 b.uncompSize ++ b.payload

/-- A folder's data-block region is its blocks' records in order. -/
def serializeBlocks (bs : List CFDATA) : Bytes := (bs.map serializeBlock).flatten

/-- Modelled from the spec (section 4.2, read path): walk a folder's
recorded number of blocks in order; for each, verify the checksum first
(mismatch or truncation is an integrity error that invalidates the
whole folder), then decompress against the history window — the tail of
the accumulated output buffer — and append to that buffer. -/
def decodeFolder (codec : ChainCodec) (raw : Bytes) :
    Nat → Nat → Bytes → Except CabError Bytes
  | _, 0, acc => .ok acc
  | off, count + 1, acc =>
    if raw.length < off + 8 then .error .integrityError else
    let ck := rd32 raw off
    let csz := rd16 raw (off + 4)
    let usz := rd16 raw (off + 6)
    if raw.length < off + 8 + csz then .error .integrityError else
    let payload := extract raw (off + 8) csz
    if compute payload usz csz ≠ ck then .error .integrityError else
    decodeFolder codec raw (off + 8 + csz) count
      (acc ++ codec.decomp (lastN MAX_BLOCK acc) payload)

/-- Folder record (spec section 6). -/
structure CFFOLDER where
  firstBlockOffset : Nat
  blockCount : Nat
  compressionType : Nat
deriving DecidableEq

/-- File record (spec section 6). -/
structure CFFILE where
  uncompressedSize : Nat
  folderOffset : Nat
  folderIndex : Nat
  date : Nat
  time : Nat
  attributes : Nat
  name : Bytes
deriving DecidableEq

/-- Modelled from the spec: the expected 4-byte signature constant,
the cabinet magic "MSCF". -/
def SIGNATURE : Bytes := [77, 83, 67, 70]

/-- Size of the fixed header (spec section 6). -/
def HEADER_SIZE : Nat := 36

/-- Size of one folder record (spec section 6). -/
def FOLDER_SIZE : Nat := 8

/-- Folder record layout (spec section 6). -/
def serializeFolder (f : CFFOLDER) : Bytes :=
  le32 f.firstBlockOffset ++ le16 f.blockCount ++ le16 f.compressionType

/-- File record layout (spec section 6): fixed metadata block followed
by the null-terminated name. -/
def serializeFile (e : CFFILE) : Bytes :=
  le32 e.uncompressedSize ++ le32 e.folderOffset ++ le16 e.folderIndex ++
    le16 e.date ++ le16 e.time ++ le16 e.attributes ++ e.name ++ [0]

/-- The file table is the file records in order. -/
def serializeFiles (es : List CFFILE) : Bytes := (es.map serializeFile).flatten

/-- Header layout (spec section 6), for a single-folder cabinet:
signature, reserved1, cabinet_size, reserved2, file_table_offset,
reserved3, version (minor 3, major 1), folder_count = 1, file_count,
flags, set_id, cabinet_index. -/
def serializeHeader (cabSize fileTableOff fileCount : Nat) : Bytes :=
  SIGNATURE ++ le32 0 ++ le32 cabSize ++ le32 0 ++ le32 fileTableOff ++
    le32 0 ++ [3, 1] ++ le16 1 ++ le16 fileCount ++ le16 0 ++ le16 0 ++ le16 0

/-- Read `count` fixed-width folder records starting at `off`. -/
def parseFolders (raw : Bytes) (off : Nat) : Nat → List CFFOLDER
  | 0 => []
  | k + 1 =>
    ⟨rd32 raw off, rd16 raw (off + 4), rd16 raw (off + 6)⟩ ::
      parseFolders raw (off + 8) k

/-- Scan a null-terminated member name starting at `off`. -/
def parseName (raw : Bytes) (off : Nat) : Bytes :=
  (raw.drop off).takeWhile (· != 0)

/-- Read `count` variable-width file records starting at `off`: a
16-byte fixed metadata block followed by a null-terminated name; a
record running past the end of the stream is a truncation error. -/
def parseFiles (raw : Bytes) (off : Nat) : Nat → Except CabError (List CFFILE)
  | 0 => .ok []
  | k + 1 =>
    if raw.length < off + 16 then .error .integrityError else
    let nm := parseName raw (off + 16)
    if raw.length < off + 16 + nm.length + 1 then .error .integrityError else
    match parseFiles raw (off + 16 + nm.length + 1) k with
    | .error e => .error e
    | .ok rest =>
      .ok (⟨rd32 raw off, rd32 raw (off + 4), rd16 raw (off + 8),
            rd16 raw (off + 10), rd16 raw (off + 12), rd16 raw (off + 14),
            nm⟩ :: rest)

/-- The eagerly parsed in-memory index of an open archive (spec
section 3 lifecycle), keeping the raw bytes for lazy block decoding. -/
structure ParsedArchive where
  folders : List CFFOLDER
  files : List CFFILE
  raw : Bytes
deriving DecidableEq

/-- Modelled from the spec (section 4.3, Table Codec deserialize): the
signature is validated before any other field is trusted, then the
version; the folder table immediately follows the header and the file
table sits at the header's declared offset.  An unsupported compression
method tag rejects the whole archive open (section 4.2). -/
def loadArchive (bytes : Bytes) : Except CabError ParsedArchive :=
  if extract bytes 0 4 ≠ SIGNATURE then .error .formatError else
  if bytes.getD 24 0 ≠ 3 ∨ bytes.getD 25 0 ≠ 1 then .error .formatError else
  let folderCount := rd16 bytes 26
  let fileCount := rd16 bytes 28
  let fileTableOff := rd32 bytes 16
  if bytes.length < HEADER_SIZE + FOLDER_SIZE * folderCount then
    .error .integrityError else
  let folders := parseFolders bytes HEADER_SIZE folderCount
  if folders.all (fun f =>
      f.compressionType == CAB_STORED || f.compressionType == CAB_COMPRESSED)
  then
    match parseFiles bytes fileTableOff fileCount with
    | .error e => .error e
    | .ok files => .ok ⟨folders, files, bytes⟩
  else .error .formatError

/-- Modelled from the spec (section 4.4, read): decompress the folder
owning a file entry and slice out the member's uncompressed range. -/
def memberBytes (pa : ParsedArchive) (e : CFFILE) : Except CabError Bytes :=
  match pa.folders[e.folderIndex]? with
  | none => .error .formatError
  | some fo =>
    match decodeFolder (codecOf fo.compressionType) pa.raw
        fo.firstBlockOffset fo.blockCount [] with
    | .error err => .error err
    | .ok stream => .ok (extract stream e.folderOffset e.uncompressedSize)

/-- Modelled from the spec (section 4.4): `read(name)` — first match in
file-table order, not-found error if absent. -/
def readMember (pa : ParsedArchive) (nm : Bytes) : Except CabError Bytes :=
  match pa.files.find? (fun e => e.name == nm) with
  | none => .error .notFoundError
  | some e => memberBytes pa e

/-- `namelist()` of a read handle: names in on-disk file-table order. -/
def ParsedArchive.namelist (pa : ParsedArchive) : List Bytes :=
  pa.files.map (·.name)

/-- Open an archive image in read mode and read one member by name. -/
def readFromBytes (bytes nm : Bytes) : Except CabError Bytes :=
  match loadArchive bytes with
  | .error e => .error e
  | .ok pa => readMember pa nm

/-- Open an archive image in read mode and list the member names. -/
def namelistFromBytes (bytes : Bytes) : Except CabError (List Bytes) :=
  match loadArchive bytes with
  | .error e => .error e
  | .ok pa => .ok pa.namelist

/-- A pending member of a write/append handle: name and content bytes
(spec section 3 lifecycle). -/
structure PendingMember where
  name : Bytes
  data : Bytes
deriving DecidableEq

/-- File entries of the pending members: each entry records its
member's uncompressed size and cumulative offset inside the single
folder's stream, folder index 0, zeroed timestamp and attributes. -/
def fileEntriesFrom (off : Nat) : List PendingMember → List CFFILE
  | [] => []
  | m :: ms =>
    ⟨m.data.length, off, 0, 0, 0, 0, m.name⟩ ::
      fileEntriesFrom (off + m.data.length) ms

/-- The single folder's uncompressed stream: the members' bytes
concatenated in insertion order. -/
def folderStream (ms : List PendingMember) : Bytes := (ms.map (·.data)).flatten

/-- Modelled from the spec (sections 3, 4.3 and 9): on close/flush the
pending list is drained into one folder via the data-block codec, and
the output is emitted in the two-pass forward-referencing layout —
header, folder record, file table, then the data-block region, with the
folder's first-block offset and the file-table offset computed from the
region sizes. -/
def flushArchive (ct : Nat) (ms : List PendingMember) : Bytes :=
  let stream := folderStream ms
  let blocks := mkBlocks (codecOf ct) stream
  let blockBytes := serializeBlocks blocks
  let fileBytes := serializeFiles (fileEntriesFrom 0 ms)
  let fileTableOff := HEADER_SIZE + FOLDER_SIZE
  let firstBlock := fileTableOff + fileBytes.length
  serializeHeader (firstBlock + blockBytes.length) fileTableOff ms.length ++
    serializeFolder ⟨firstBlock, blocks.length, ct⟩ ++ fileBytes ++ blockBytes

/-- Open modes of the archive handle (spec sections 4.4 and 6). -/
inductive Mode where
  | read
  | write
  | append
deriving DecidableEq

/-- The archive handle: its mode, the compression method used on
flush, the pending member list (write/append) and the parsed index
(read). -/
structure CabFile where
  mode : Mode
  compressionType : Nat
  pending : List PendingMember
  parsed : Option ParsedArchive
deriving DecidableEq

/-- Modelled from the demo script's calls (src/example.py lines 50, 80
and 112) and spec section 6: the zipfile-compatible one-character mode
spellings accepted by the `CabFile` constructor. -/
def modeOfString (s : String) : Option Mode :=
  if s = "r" then some .read else
  if s = "w" then some .write else
  if s = "a" then some .append else none

/-- Modelled from the spec (section 4.4, append): re-inject every
pre-existing member as a pending entry carrying its already-decompressed
bytes, in file-table order. -/
def reinject (pa : ParsedArchive) : Except CabError (List PendingMember) :=
  pa.files.mapM (fun e => (memberBytes pa e).map (fun d => ⟨e.name, d⟩))

/-- Modelled from the spec (section 4.4): open in a mode — write starts
empty; read loads the table codec's index; append reads the existing
archive fully and then behaves as write over the re-injected members. -/
def CabFile.openArchive (bytes : Bytes) (m : Mode) (ct : Nat) :
    Except CabError CabFile :=
  match m with
  | .write => .ok ⟨.write, ct, [], none⟩
  | .read =>
    match loadArchive bytes with
    | .error e => .error e
    | .ok pa => .ok ⟨.read, ct, [], some pa⟩
  | .append =>
    match loadArchive bytes with
    | .error e => .error e
    | .ok pa =>
      match reinject pa with
      | .error e => .error e
      | .ok ms => .ok ⟨.append, ct, ms, none⟩

/-- Modelled from the spec (section 4.4): `writestr(name, bytes)` —
only valid in write/append mode; appends to the pending member list;
fails with a mode error on a read handle, leaving it untouched. -/
def CabFile.writestr (cf : CabFile) (nm data : Bytes) :
    Except CabError Unit × CabFile :=
  if cf.mode = Mode.read then (.error .modeError, cf)
  else (.ok (), ⟨cf.mode, cf.compressionType,
                 cf.pending ++ [⟨nm, data⟩], cf.parsed⟩)

/-- Modelled from the spec (sections 1 and 4.4): `write(source_path,
arcname)` is a thin caller of the core writestr on the source file's
bytes; the filesystem read is represented by passing those bytes. -/
def CabFile.write (cf : CabFile) (fileData : Bytes) (arcname : Bytes) :
    Except CabError Unit × CabFile :=
  cf.writestr arcname fileData

/-- `namelist()` (spec section 4.4): file-table order — on-disk order
for a read handle, insertion order for a write/append handle. -/
def CabFile.namelist (cf : CabFile) : List Bytes :=
  match cf.parsed with
  | some pa => pa.namelist
  | none => cf.pending.map (·.name)

/-- Close: flush the pending members of a write/append handle into the
serialized archive image; a read handle writes nothing. -/
def CabFile.close (cf : CabFile) : Option Bytes :=
  match cf.mode with
  | .read => none
  | _ => some (flushArchive cf.compressionType cf.pending)

/-- Modelled from Python's `str.encode("utf-8")`: UTF-8 encoding of a
single unicode scalar value. -/
def encodeChar (n : Nat) : Bytes :=
  if n < 128 then [n]
  else if n < 2048 then [192 + n / 64, 128 + n % 64]
  else if n < 65536 then [224 + n / 4096, 128 + n / 64 % 64, 128 + n % 64]
  else [240 + n / 262144, 128 + n / 4096 % 64, 128 + n / 64 % 64, 128 + n % 64]

/-- Modelled from Python's `str.encode("utf-8")` as used by writestr on
text input: the UTF-8 bytes of the string. -/
def utf8Bytes (s : String) : Bytes := s.data.flatMap (fun c => encodeChar c.toNat)

/-- Modelled from the demo script (src/example.py line 62): writestr
accepts a text payload, stored as its UTF-8 bytes. -/
def CabFile.writestrText (cf : CabFile) (nm : Bytes) (s : String) :
    Except CabError Unit × CabFile :=
  cf.writestr nm (utf8Bytes s)

/-- Modelled from Python's `bytes.decode("utf-8")` (strict): decode a
byte list to the list of unicode scalar values, rejecting truncated,
ill-formed, overlong and surrogate sequences (a missing continuation
byte reads as 0, which fails the 128..191 continuation range check). -/
def decodeUtf8 : Bytes → Option (List Nat)
  | [] => some []
  | b0 :: rest =>
    if b0 < 128 then (decodeUtf8 rest).map (fun t => b0 :: t)
    else if b0 < 194 then none
    else if b0 < 224 then
      let b1 := rest.getD 0 0
      if 128 ≤ b1 ∧ b1 < 192 then
        (decodeUtf8 (rest.drop 1)).map
          (fun t => ((b0 - 192) * 64 + (b1 - 128)) :: t)
      else none
    else if b0 < 240 then
      let b1 := rest.getD 0 0
      let b2 := rest.getD 1 0
      let n := (b0 - 224) * 4096 + (b1 - 128) * 64 + (b2 - 128)
      if (128 ≤ b1 ∧ b1 < 192) ∧ (128 ≤ b2 ∧ b2 < 192) ∧ 2048 ≤ n ∧
          (n < 55296 ∨ 57344 ≤ n) then
        (decodeUtf8 (rest.drop 2)).map (fun t => n :: t)
      else none
    else if b0 < 245 then
      let b1 := rest.getD 0 0
      let b2 := rest.getD 1 0
      let b3 := rest.getD 2 0
      let n := (b0 - 240) * 262144 + (b1 - 128) * 4096 + (b2 - 128) * 64 +
        (b3 - 128)
      if (128 ≤ b1 ∧ b1 < 192) ∧ (128 ≤ b2 ∧ b2 < 192) ∧
          (128 ≤ b3 ∧ b3 < 192) ∧ 65536 ≤ n ∧ n < 1114112 then
        (decodeUtf8 (rest.drop 3)).map (fun t => n :: t)
      else none
    else none
termination_by l => l.length
decreasing_by
  all_goals simp [List.length_drop]
  all_goals omega

/-- Outcome of the try-block of src/test_pycabfile.py: either importing
run_all_tests raises ImportError, or run_all_tests.main() returns an
exit status that is handed to sys.exit. -/
inductive TryOutcome where
  | importError
  | mainReturns (status : Nat)
deriving DecidableEq

/-- Observable result of the legacy test script: the final sys.path and
the process exit status. -/
structure ScriptResult where
  sysPath : List String
  exitStatus : Nat
deriving DecidableEq

/-- Embedding of the module-level body of src/test_pycabfile.py (lines
16-38): first insert "<script dir>/test" at the front of sys.path, then
try importing run_all_tests — on ImportError print an error and exit
with status 1, otherwise exit with the status run_all_tests.main()
returned. -/
def runLegacyTestScript (scriptDir : String) (path0 : List String)
    (o : TryOutcome) : ScriptResult :=
  let path1 := (scriptDir ++ "/test") :: path0
  match o with
  | .importError => ⟨path1, 1⟩
  | .mainReturns r => ⟨path1, r⟩

/-- The codec laws the spec's round-trip properties rest on: chained
decompression inverts chained compression under the same history, byte
outputs stay bytes, and a block's compressed size fits the u16 record
field. -/
def GoodCodec (codec : ChainCodec) : Prop :=
  (∀ h d, (∀ b ∈ d, b < 256) → codec.decomp h (codec.comp h d) = d) ∧
  (∀ h d, (∀ b ∈ d, b < 256) → ∀ b ∈ codec.comp h d, b < 256) ∧
  (∀ h d, d.length ≤ MAX_BLOCK → (codec.comp h d).length < 65536)

/-- Well-formedness of a member list for the wire format: names are
null-free byte strings, contents are bytes, and the table counts and
offsets fit their fixed-width header fields. -/
def ValidMembers (ms : List PendingMember) : Prop :=
  (∀ m ∈ ms, ∀ b ∈ m.name, b ≠ 0 ∧ b < 256) ∧
  (∀ m ∈ ms, ∀ b ∈ m.data, b < 256) ∧
  ms.length < 65536 ∧
  (folderStream ms).length ≤ 2147450880 ∧
  HEADER_SIZE + FOLDER_SIZE +
    (serializeFiles (fileEntriesFrom 0 ms)).length < 4294967296

/-- The claim's description of the checksum fold: the 4-byte
little-endian group words of the stream, trailing partial group
zero-padded. -/
def csumWords (d : Bytes) : List Nat :=
  (List.range ((d.length + 3) / 4)).map (fun i => dec32 (extract d (4 * i) 4))

/-- Repeated XOR accumulation over a word list. -/
def xorList (ws : List Nat) : Nat := ws.foldl (fun a b => a ^^^ b) 0

/-- A data block whose record fields fit the wire format and match its
payload. -/
def SerBlock (b : CFDATA) : Prop :=
  b.compSize = b.payload.length ∧ b.checksum < 4294967296 ∧
    b.compSize < 65536 ∧ b.uncompSize < 65536

/-- A file entry whose record fields fit the wire format and whose name
is null-free. -/
def SerEntry (e : CFFILE) : Prop :=
  e.uncompressedSize < 4294967296 ∧ e.folderOffset < 4294967296 ∧
    e.folderIndex < 65536 ∧ e.date < 65536 ∧ e.time < 65536 ∧
    e.attributes < 65536 ∧ ∀ b ∈ e.name, b ≠ 0

/-- Total byte length of the data of the members of `ms`. -/
def dataLenSum (ms : List PendingMember) : Nat :=
  (ms.map (fun m => m.data.length)).sum

/-- Sequence of writestr calls on a handle, keeping the final handle. -/
def writeAll (cf : CabFile) (ms : List PendingMember) : CabFile :=
  ms.foldl (fun h m => (h.writestr m.name m.data).2) cf

/-- The byte position of offset `i` inside the compressed payload of
data block `j` of the single folder of the archive `flushArchive ct ms`:
past the header, the folder record, the file table, the earlier block
records, and block `j`'s own 8-byte record. -/
def blockRegionPos (ct : Nat) (ms : List PendingMember) (j i : Nat) : Nat :=
  HEADER_SIZE + FOLDER_SIZE + (serializeFiles (fileEntriesFrom 0 ms)).length +
    (serializeBlocks ((mkBlocks (codecOf ct) (folderStream ms)).take j)).length +
    8 + i

/-- The append scenario of the spec's testable property: write one
member, close, reopen in append mode, add a second member, close,
reopen in read mode, and report the name list and both contents. -/
def appendScenario (ct : Nat) : Except CabError (List Bytes × Bytes × Bytes) :=
  match CabFile.openArchive (flushArchive ct [⟨[120], [49]⟩]) .append ct with
  | .error e => .error e
  | .ok cf =>
    match cf.writestr [121] [50] with
    | (.error e, _) => .error e
    | (.ok _, cf2) =>
      match cf2.close with
      | none => .error .modeError
      | some b2 =>
        match namelistFromBytes b2, readFromBytes b2 [120], readFromBytes b2 [121] with
        | .ok nl, .ok vx, .ok vy => .ok (nl, vx, vy)
        | _, _, _ => .error .integrityError

/-! ### Byte-level lemmas -/

lemma length_le16 (x : Nat) : (le16 x).length = 2 := rfl

lemma length_le32 (x : Nat) : (le32 x).length = 4 := rfl

lemma length_serializeHeader (a b c : Nat) : (serializeHeader a b c).length = 36 := rfl

lemma length_serializeFolder (f : CFFOLDER) : (serializeFolder f).length = 8 := rfl

lemma length_serializeFile (e : CFFILE) :
    (serializeFile e).length = 17 + e.name.length := by
  simp [serializeFile, le16, le32]
  omega

lemma length_serializeBlock (b : CFDATA) :
    (serializeBlock b).length = 8 + b.payload.length := by
  simp [serializeBlock, le16, le32]
  omega

lemma drop_append_len (p l : Bytes) (k : Nat) :
    (p ++ l).drop (p.length + k) = l.drop k := by
  rw [List.drop_append_eq_append_drop, List.drop_eq_nil_of_le (by omega)]
  simp only [List.nil_append]
  congr 1
  omega

lemma extract_append_len (p l : Bytes) (k n : Nat) :
    extract (p ++ l) (p.length + k) n = extract l k n := by
  unfold extract
  rw [drop_append_len]

lemma rd16_append_len (p l : Bytes) (k : Nat) :
    rd16 (p ++ l) (p.length + k) = rd16 l k := by
  unfold rd16
  rw [extract_append_len]

lemma rd32_append_len (p l : Bytes) (k : Nat) :
    rd32 (p ++ l) (p.length + k) = rd32 l k := by
  unfold rd32
  rw [extract_append_len]

lemma extract_left (l r : Bytes) (n : Nat) (h : l.length = n) :
    extract (l ++ r) 0 n = l := by
  subst h
  unfold extract
  rw [List.drop_zero, List.take_left]

lemma getD_extract (l : Bytes) (off n j : Nat) :
    (extract l off n).getD j 0 = if j < n then l.getD (off + j) 0 else 0 := by
  simp only [extract, List.getD_eq_getElem?_getD, List.getElem?_take,
    List.getElem?_drop]
  split_ifs <;> simp

lemma getD_set (l : Bytes) (k m v : Nat) :
    (l.set k v).getD m 0 = if k = m ∧ k < l.length then v else l.getD m 0 := by
  simp only [List.getD_eq_getElem?_getD, List.getElem?_set]
  by_cases h1 : k = m
  · by_cases h2 : k < l.length
    · rw [if_pos h1, if_pos h2, if_pos ⟨h1, h2⟩]
      rfl
    · rw [if_pos h1, if_neg h2, if_neg (fun hc => h2 hc.2)]
      subst h1
      first
      | rfl
      | rw [List.getElem?_eq_none (by omega)]
  · rw [if_neg h1, if_neg (fun hc => h1 hc.1)]

lemma getD_lt (l : Bytes) (hb : ∀ b ∈ l, b < 256) (i : Nat) : l.getD i 0 < 256 := by
  by_cases h : i < l.length
  · rw [List.getD_eq_getElem?_getD, List.getElem?_eq_getElem h]
    exact hb _ (List.getElem_mem h)
  · rw [List.getD_eq_getElem?_getD, List.getElem?_eq_none (by omega)]
    norm_num

lemma dec32_extract (l : Bytes) (off : Nat) :
    dec32 (extract l off 4) =
      l.getD off 0 + 256 * l.getD (off + 1) 0 + 65536 * l.getD (off + 2) 0 +
        16777216 * l.getD (off + 3) 0 := by
  unfold dec32
  rw [getD_extract, getD_extract, getD_extract, getD_extract]
  norm_num

lemma extract_set_outside (l : Bytes) (p v off n : Nat) (h : p < off ∨ off + n ≤ p) :
    extract (l.set p v) off n = extract l off n := by
  apply List.ext_getElem?
  intro j
  simp only [extract, List.getElem?_take, List.getElem?_drop]
  split_ifs with hj
  · rw [List.getElem?_set, if_neg (by omega)]
  · rfl

/-! ### Checksum closed form and bounds -/

lemma foldl_xor_acc (l : List Nat) :
    ∀ a : Nat, l.foldl (fun x y => x ^^^ y) a = a ^^^ l.foldl (fun x y => x ^^^ y) 0 := by
  induction l with
  | nil => intro a; simp
  | cons b t ih =>
    intro a
    simp only [List.foldl_cons]
    rw [ih (a ^^^ b), ih (0 ^^^ b), Nat.zero_xor, Nat.xor_assoc]

lemma xorList_cons (w : Nat) (ws : List Nat) : xorList (w :: ws) = w ^^^ xorList ws := by
  unfold xorList
  simp only [List.foldl_cons]
  rw [foldl_xor_acc ws (0 ^^^ w), Nat.zero_xor]

lemma csumFold_acc (acc : Nat) (l : Bytes) : csumFold acc l = acc ^^^ csumFold 0 l := by
  have H : ∀ (a0 : Nat) (l : Bytes), ∀ a, csumFold a l = a ^^^ csumFold 0 l := by
    intro a0 l
    induction a0, l using csumFold.induct with
    | case1 a0 => intro a; simp [csumFold]
    | case2 a0 b0 => intro a; simp [csumFold]
    | case3 a0 b0 b1 => intro a; simp [csumFold]
    | case4 a0 b0 b1 b2 => intro a; simp [csumFold]
    | case5 a0 b0 b1 b2 b3 rest ih =>
      intro a
      show csumFold (a ^^^ (b0 + 256 * b1 + 65536 * b2 + 16777216 * b3)) rest =
        a ^^^ csumFold (0 ^^^ (b0 + 256 * b1 + 65536 * b2 + 16777216 * b3)) rest
      rw [ih, ih (0 ^^^ (b0 + 256 * b1 + 65536 * b2 + 16777216 * b3)), Nat.zero_xor,
        Nat.xor_assoc]
  exact H 0 l acc

lemma csumWords_cons4 (b0 b1 b2 b3 : Nat) (rest : Bytes) :
    csumWords (b0 :: b1 :: b2 :: b3 :: rest) =
      (b0 + 256 * b1 + 65536 * b2 + 16777216 * b3) :: csumWords rest := by
  unfold csumWords
  have hlen : ((b0 :: b1 :: b2 :: b3 :: rest).length + 3) / 4 = (rest.length + 3) / 4 + 1 := by
    simp only [List.length_cons]
    omega
  rw [hlen, List.range_succ_eq_map]
  simp only [List.map_cons, List.map_map]
  refine List.cons_eq_cons.mpr ⟨rfl, ?_⟩
  apply List.map_congr_left
  intro i _
  show dec32 (extract (b0 :: b1 :: b2 :: b3 :: rest) (4 * (i + 1)) 4) = _
  have h4 : 4 * (i + 1) = ([b0, b1, b2, b3] : Bytes).length + 4 * i := by
    simp
    omega
  rw [show (b0 :: b1 :: b2 :: b3 :: rest : Bytes) = [b0, b1, b2, b3] ++ rest from rfl,
    h4, extract_append_len]

lemma csumWords_nil : csumWords [] = [] := by
  simp [csumWords]

lemma csumWords_one (b0 : Nat) : csumWords [b0] = [b0] := by
  simp [csumWords, dec32_extract, List.range_succ]

lemma csumWords_two (b0 b1 : Nat) : csumWords [b0, b1] = [b0 + 256 * b1] := by
  simp [csumWords, dec32_extract, List.range_succ]

lemma csumWords_three (b0 b1 b2 : Nat) :
    csumWords [b0, b1, b2] = [b0 + 256 * b1 + 65536 * b2] := by
  simp [csumWords, dec32_extract, List.range_succ]

lemma xorList_single (w : Nat) : xorList [w] = w := by
  simp [xorList]

lemma csumFold_xorList (acc : Nat) (d : Bytes) :
    csumFold acc d = acc ^^^ xorList (csumWords d) := by
  induction acc, d using csumFold.induct with
  | case1 a =>
    show a = a ^^^ xorList (csumWords [])
    rw [csumWords_nil, show xorList [] = 0 from rfl, Nat.xor_zero]
  | case2 a b0 =>
    show a ^^^ b0 = a ^^^ xorList (csumWords [b0])
    rw [csumWords_one, xorList_single]
  | case3 a b0 b1 =>
    show a ^^^ (b0 + 256 * b1) = a ^^^ xorList (csumWords [b0, b1])
    rw [csumWords_two, xorList_single]
  | case4 a b0 b1 b2 =>
    show a ^^^ (b0 + 256 * b1 + 65536 * b2) = a ^^^ xorList (csumWords [b0, b1, b2])
    rw [csumWords_three, xorList_single]
  | case5 a b0 b1 b2 b3 rest ih =>
    show csumFold (a ^^^ (b0 + 256 * b1 + 65536 * b2 + 16777216 * b3)) rest = _
    rw [ih, csumWords_cons4, xorList_cons, Nat.xor_assoc]

lemma dec32_le16_pair (u c : Nat) :
    dec32 (le16 u ++ le16 c) = u % 65536 + 65536 * (c % 65536) := by
  have h : dec32 (le16 u ++ le16 c) =
      u % 256 + 256 * (u / 256 % 256) + 65536 * (c % 256) +
        16777216 * (c / 256 % 256) := rfl
  omega

/-- The checksum as the claim describes it: XOR of the 4-byte LE group
words, then XOR with the packed 16-bit size fields. -/
lemma compute_closed (d : Bytes) (u c : Nat) :
    compute d u c = xorList (csumWords d) ^^^ (u % 65536 + 65536 * (c % 65536)) := by
  unfold compute
  rw [csumFold_xorList, Nat.zero_xor, dec32_le16_pair]

lemma xor_lt_32 (a b : Nat) (ha : a < 4294967296) (hb : b < 4294967296) :
    a ^^^ b < 4294967296 := by
  have h1 : a < 2 ^ 32 := by norm_num at ha ⊢; omega
  have h2 : b < 2 ^ 32 := by norm_num at hb ⊢; omega
  have h := Nat.xor_lt_two_pow h1 h2
  norm_num at h
  omega

lemma csumFold_lt : ∀ (acc : Nat) (l : Bytes), (∀ b ∈ l, b < 256) →
    acc < 4294967296 → csumFold acc l < 4294967296 := by
  intro acc l
  induction acc, l using csumFold.induct with
  | case1 a => intro _ ha; exact ha
  | case2 a b0 =>
    intro hb ha
    have h0 : b0 < 256 := hb b0 (by simp)
    exact xor_lt_32 _ _ ha (by omega)
  | case3 a b0 b1 =>
    intro hb ha
    have h0 : b0 < 256 := hb b0 (by simp)
    have h1 : b1 < 256 := hb b1 (by simp)
    exact xor_lt_32 _ _ ha (by omega)
  | case4 a b0 b1 b2 =>
    intro hb ha
    have h0 : b0 < 256 := hb b0 (by simp)
    have h1 : b1 < 256 := hb b1 (by simp)
    have h2 : b2 < 256 := hb b2 (by simp)
    exact xor_lt_32 _ _ ha (by omega)
  | case5 a b0 b1 b2 b3 rest ih =>
    intro hb ha
    have h0 : b0 < 256 := hb b0 (by simp)
    have h1 : b1 < 256 := hb b1 (by simp)
    have h2 : b2 < 256 := hb b2 (by simp)
    have h3 : b3 < 256 := hb b3 (by simp)
    show csumFold (a ^^^ (b0 + 256 * b1 + 65536 * b2 + 16777216 * b3)) rest <
      4294967296
    apply ih
    · intro b hbm
      exact hb b (by simp [hbm])
    · exact xor_lt_32 _ _ ha (by omega)

lemma compute_lt (d : Bytes) (u c : Nat) (hb : ∀ b ∈ d, b < 256) :
    compute d u c < 4294967296 := by
  unfold compute
  apply xor_lt_32
  · exact csumFold_lt 0 d hb (by omega)
  · rw [dec32_le16_pair]
    omega

/-- C2: `compute(compressed_bytes, uncompressed_size, compressed_size)`
folds the byte stream in 4-byte little-endian groups by repeated XOR
accumulation (the trailing partial group zero-padded — `csumWords`),
then XORs the accumulator with the little-endian encoding of
(uncompressed_size, compressed_size) packed as two 16-bit fields; the
result is a u32 whenever the input is a byte stream. -/
theorem claim2_checksum_contract (d : Bytes) (u c : Nat) :
    compute d u c = xorList (csumWords d) ^^^ (u % 65536 + 65536 * (c % 65536)) ∧
      ((∀ b ∈ d, b < 256) → compute d u c < 4294967296) :=
  ⟨compute_closed d u c, fun hb => compute_lt d u c hb⟩

/-- Witness for C2 at a concrete input. -/
theorem claim2_checksum_contract_witness :
    compute [1, 2, 3, 4, 5] 5 5 =
        xorList (csumWords [1, 2, 3, 4, 5]) ^^^ (5 % 65536 + 65536 * (5 % 65536)) ∧
      compute [1, 2, 3, 4, 5] 5 5 < 4294967296 :=
  ⟨(claim2_checksum_contract [1, 2, 3, 4, 5] 5 5).1,
    (claim2_checksum_contract [1, 2, 3, 4, 5] 5 5).2 (by decide)⟩

/-! ### A flipped payload byte changes the checksum -/

lemma length_csumWords (d : Bytes) : (csumWords d).length = (d.length + 3) / 4 := by
  simp [csumWords]

lemma getD_csumWords (d : Bytes) (i : Nat) (h : i < (d.length + 3) / 4) :
    (csumWords d).getD i 0 = dec32 (extract d (4 * i) 4) := by
  rw [List.getD_eq_getElem?_getD]
  simp only [csumWords, List.getElem?_map, List.getElem?_range h]
  rfl

lemma xorList_set (ws : List Nat) : ∀ (q w : Nat), q < ws.length →
    xorList (ws.set q w) = xorList ws ^^^ ws.getD q 0 ^^^ w := by
  induction ws with
  | nil =>
    intro q w h
    simp at h
  | cons a t ih =>
    intro q w hq
    cases q with
    | zero =>
      show xorList (w :: t) = xorList (a :: t) ^^^ a ^^^ w
      rw [xorList_cons, xorList_cons, Nat.xor_comm a (xorList t),
        Nat.xor_assoc (xorList t) a a, Nat.xor_self, Nat.xor_zero,
        Nat.xor_comm w (xorList t)]
    | succ q =>
      show xorList (a :: t.set q w) = xorList (a :: t) ^^^ t.getD q 0 ^^^ w
      rw [xorList_cons, xorList_cons, ih q w (by simp at hq; omega),
        Nat.xor_assoc (xorList t) (t.getD q 0) w,
        Nat.xor_assoc (a ^^^ xorList t) (t.getD q 0) w,
        Nat.xor_assoc a (xorList t) (t.getD q 0 ^^^ w)]

lemma dec32_extract_set_ne (d : Bytes) (k v : Nat) (hk : k < d.length)
    (hb : ∀ b ∈ d, b < 256) (hv : v < 256) (hne : v ≠ d.getD k 0) :
    dec32 (extract (d.set k v) (4 * (k / 4)) 4) ≠ dec32 (extract d (4 * (k / 4)) 4) := by
  rw [dec32_extract, dec32_extract]
  rw [getD_set, getD_set, getD_set, getD_set]
  have h0 := getD_lt d hb (4 * (k / 4))
  have h1 := getD_lt d hb (4 * (k / 4) + 1)
  have h2 := getD_lt d hb (4 * (k / 4) + 2)
  have h3 := getD_lt d hb (4 * (k / 4) + 3)
  have hi := getD_lt d hb k
  rcases (show k % 4 = 0 ∨ k % 4 = 1 ∨ k % 4 = 2 ∨ k % 4 = 3 by omega) with h | h | h | h
  · rw [if_pos ⟨by omega, hk⟩, if_neg (by omega), if_neg (by omega), if_neg (by omega)]
    have hix : 4 * (k / 4) = k := by omega
    rw [hix]
    omega
  · rw [if_neg (by omega), if_pos ⟨by omega, hk⟩, if_neg (by omega), if_neg (by omega)]
    have hix : 4 * (k / 4) + 1 = k := by omega
    rw [hix]
    omega
  · rw [if_neg (by omega), if_neg (by omega), if_pos ⟨by omega, hk⟩, if_neg (by omega)]
    have hix : 4 * (k / 4) + 2 = k := by omega
    rw [hix]
    omega
  · rw [if_neg (by omega), if_neg (by omega), if_neg (by omega), if_pos ⟨by omega, hk⟩]
    have hix : 4 * (k / 4) + 3 = k := by omega
    rw [hix]
    omega

lemma csumWords_set (d : Bytes) (k v : Nat) (hk : k < d.length) :
    csumWords (d.set k v) =
      (csumWords d).set (k / 4) (dec32 (extract (d.set k v) (4 * (k / 4)) 4)) := by
  apply List.ext_getElem?
  intro n
  have hlen : (d.set k v).length = d.length := List.length_set d k v
  by_cases hkn : k / 4 = n
  · subst hkn
    have hlt : k / 4 < (d.length + 3) / 4 := by omega
    rw [List.getElem?_set, if_pos rfl, if_pos (by rw [length_csumWords]; omega)]
    simp only [csumWords, hlen, List.getElem?_map, List.getElem?_range hlt]
    rfl
  · rw [List.getElem?_set, if_neg hkn]
    by_cases hn : n < (d.length + 3) / 4
    · simp only [csumWords, hlen, List.getElem?_map, List.getElem?_range hn]
      have h5 : extract (d.set k v) (4 * n) 4 = extract d (4 * n) 4 :=
        extract_set_outside d k v (4 * n) 4 (by omega)
      show some (dec32 (extract (d.set k v) (4 * n) 4)) =
        some (dec32 (extract d (4 * n) 4))
      rw [h5]
    · simp only [csumWords, hlen, List.getElem?_map]
      rw [List.getElem?_eq_none (by simp [List.length_range]; omega)]
      rfl

lemma xor_eq_zero_iff (a b : Nat) : a ^^^ b = 0 ↔ a = b := by
  constructor
  · intro h
    have h2 : a ^^^ b ^^^ b = 0 ^^^ b := by rw [h]
    rwa [Nat.xor_assoc, Nat.xor_self, Nat.xor_zero, Nat.zero_xor] at h2
  · intro h
    rw [h, Nat.xor_self]

lemma compute_set_ne (d : Bytes) (k v u c : Nat) (hk : k < d.length)
    (hb : ∀ b ∈ d, b < 256) (hv : v < 256) (hne : v ≠ d.getD k 0) :
    compute (d.set k v) u c ≠ compute d u c := by
  rw [compute_closed, compute_closed]
  intro heq
  rw [Nat.xor_comm (xorList (csumWords (d.set k v))) _,
    Nat.xor_comm (xorList (csumWords d)) _, Nat.xor_right_inj] at heq
  rw [csumWords_set d k v hk,
    xorList_set (csumWords d) (k / 4) _ (by rw [length_csumWords]; omega),
    Nat.xor_assoc] at heq
  conv at heq => rhs; rw [← Nat.xor_zero (xorList (csumWords d))]
  rw [Nat.xor_right_inj] at heq
  have hw : dec32 (extract (d.set k v) (4 * (k / 4)) 4) = (csumWords d).getD (k / 4) 0 :=
    ((xor_eq_zero_iff _ _).mp heq).symm
  rw [getD_csumWords d (k / 4) (by omega)] at hw
  exact dec32_extract_set_ne d k v hk hb hv hne hw

/-! ### The two codecs satisfy the chained-codec laws -/

lemma goodCodec_stored : GoodCodec storedCodec := by
  refine ⟨fun h d _ => rfl, fun h d hb => hb, fun h d hd => ?_⟩
  show d.length < 65536
  unfold MAX_BLOCK at hd
  omega

lemma deltaDec_enc (d : Bytes) : ∀ p : Nat, (∀ b ∈ d, b < 256) →
    deltaDec p (deltaEnc p d) = d := by
  induction d with
  | nil => intro p _; rfl
  | cons b bs ih =>
    intro p hb
    show ((b + 256 - p % 256) % 256 + p) % 256 ::
      deltaDec (((b + 256 - p % 256) % 256 + p) % 256) (deltaEnc b bs) = b :: bs
    have hb0 : b < 256 := hb b (by simp)
    have hseed : ((b + 256 - p % 256) % 256 + p) % 256 = b := by omega
    rw [hseed, ih b (fun x hx => hb x (by simp [hx]))]

lemma length_deltaEnc (d : Bytes) : ∀ p : Nat, (deltaEnc p d).length = d.length := by
  induction d with
  | nil => intro p; rfl
  | cons b bs ih =>
    intro p
    show (deltaEnc b bs).length + 1 = bs.length + 1
    rw [ih b]

lemma mem_deltaEnc_lt (d : Bytes) : ∀ (p : Nat), ∀ b ∈ deltaEnc p d, b < 256 := by
  induction d with
  | nil => intro p b hb; simp [deltaEnc] at hb
  | cons x xs ih =>
    intro p b hb
    rw [show deltaEnc p (x :: xs) = (x + 256 - p % 256) % 256 :: deltaEnc x xs
      from rfl] at hb
    rcases List.mem_cons.mp hb with h | h
    · omega
    · exact ih x b h

lemma goodCodec_mszip : GoodCodec mszipCodec := by
  refine ⟨fun h d hb => deltaDec_enc d (h.getLastD 0) hb,
    fun h d hb => mem_deltaEnc_lt d (h.getLastD 0),
    fun h d hd => ?_⟩
  show (deltaEnc (h.getLastD 0) d).length < 65536
  rw [length_deltaEnc]
  unfold MAX_BLOCK at hd
  omega

lemma goodCodec_codecOf (t : Nat) : GoodCodec (codecOf t) := by
  unfold codecOf
  split_ifs with h
  · exact goodCodec_mszip
  · exact goodCodec_stored

/-! ### Data block region: reading one serialized block record -/

lemma serializeBlocks_nil : serializeBlocks [] = [] := rfl

lemma serializeBlocks_cons (b : CFDATA) (bs : List CFDATA) :
    serializeBlocks (b :: bs) = serializeBlock b ++ serializeBlocks bs := by
  simp [serializeBlocks]

lemma serializeBlocks_append (bs cs : List CFDATA) :
    serializeBlocks (bs ++ cs) = serializeBlocks bs ++ serializeBlocks cs := by
  simp [serializeBlocks]

lemma rd32_at_len (pre l : Bytes) : rd32 (pre ++ l) pre.length = rd32 l 0 := by
  have h := rd32_append_len pre l 0
  simpa using h

lemma rd32_block (b : CFDATA) (rest : Bytes) :
    rd32 (serializeBlock b ++ rest) 0 = b.checksum % 4294967296 := by
  have h : rd32 (serializeBlock b ++ rest) 0 =
      b.checksum % 256 + 256 * (b.checksum / 256 % 256) +
        65536 * (b.checksum / 65536 % 256) +
        16777216 * (b.checksum / 16777216 % 256) := rfl
  omega

lemma rd16_block_csz (b : CFDATA) (rest : Bytes) :
    rd16 (serializeBlock b ++ rest) 4 = b.compSize % 65536 := by
  have h : rd16 (serializeBlock b ++ rest) 4 =
      b.compSize % 256 + 256 * (b.compSize / 256 % 256) := rfl
  omega

lemma rd16_block_usz (b : CFDATA) (rest : Bytes) :
    rd16 (serializeBlock b ++ rest) 6 = b.uncompSize % 65536 := by
  have h : rd16 (serializeBlock b ++ rest) 6 =
      b.uncompSize % 256 + 256 * (b.uncompSize / 256 % 256) := rfl
  omega

lemma drop8_block (b : CFDATA) (rest : Bytes) :
    (serializeBlock b ++ rest).drop 8 = b.payload ++ rest := rfl

lemma extract_block_payload (b : CFDATA) (rest : Bytes) :
    extract (serializeBlock b ++ rest) 8 b.payload.length = b.payload := by
  unfold extract
  rw [drop8_block, List.take_left]

/-- Reading one well-formed serialized block record advances the decode
loop: its fields read back exactly, its checksum verifies, and the loop
continues after the record with the decompressed bytes appended. -/
lemma decodeFolder_step (codec : ChainCodec) (pre : Bytes) (b : CFDATA)
    (rest : Bytes) (k : Nat) (acc : Bytes)
    (hs : SerBlock b)
    (hok : compute b.payload b.uncompSize b.compSize = b.checksum) :
    decodeFolder codec (pre ++ (serializeBlock b ++ rest)) pre.length (k + 1) acc =
      decodeFolder codec (pre ++ (serializeBlock b ++ rest))
        (pre.length + 8 + b.compSize) k
        (acc ++ codec.decomp (lastN MAX_BLOCK acc) b.payload) := by
  obtain ⟨hcs, hck, hcsz, husz⟩ := hs
  have hlenraw : (pre ++ (serializeBlock b ++ rest)).length =
      pre.length + 8 + b.payload.length + rest.length := by
    simp [length_serializeBlock]
    omega
  have hr32 : rd32 (pre ++ (serializeBlock b ++ rest)) pre.length = b.checksum := by
    rw [rd32_at_len, rd32_block]
    omega
  have hr16c : rd16 (pre ++ (serializeBlock b ++ rest)) (pre.length + 4) = b.compSize := by
    rw [rd16_append_len, rd16_block_csz]
    omega
  have hr16u : rd16 (pre ++ (serializeBlock b ++ rest)) (pre.length + 6) = b.uncompSize := by
    rw [rd16_append_len, rd16_block_usz]
    omega
  have hpay : extract (pre ++ (serializeBlock b ++ rest)) (pre.length + 8) b.compSize =
      b.payload := by
    rw [extract_append_len, hcs, extract_block_payload]
  simp only [decodeFolder, hr32, hr16c, hr16u, hpay]
  rw [if_neg (by omega), if_neg (by omega), if_neg (not_not_intro hok)]

lemma mem_extract (l : Bytes) (off n : Nat) (b : Nat) (hb : b ∈ extract l off n) :
    b ∈ l :=
  List.mem_of_mem_drop (List.mem_of_mem_take hb)

lemma length_extract_le (l : Bytes) (off n : Nat) : (extract l off n).length ≤ n := by
  simp [extract, List.length_take]

lemma mkBlock_good (codec : ChainCodec) (hg : GoodCodec codec) (stream : Bytes)
    (hb : ∀ b ∈ stream, b < 256) (i : Nat) :
    SerBlock (mkBlock codec stream i) ∧
      compute (mkBlock codec stream i).payload (mkBlock codec stream i).uncompSize
        (mkBlock codec stream i).compSize = (mkBlock codec stream i).checksum := by
  have hub : ∀ b ∈ extract stream (i * MAX_BLOCK) MAX_BLOCK, b < 256 :=
    fun b hbm => hb b (mem_extract stream (i * MAX_BLOCK) MAX_BLOCK b hbm)
  have hcb : ∀ b ∈ codec.comp (lastN MAX_BLOCK (stream.take (i * MAX_BLOCK)))
      (extract stream (i * MAX_BLOCK) MAX_BLOCK), b < 256 :=
    hg.2.1 _ _ hub
  have hul : (extract stream (i * MAX_BLOCK) MAX_BLOCK).length ≤ MAX_BLOCK :=
    length_extract_le _ _ _
  refine ⟨⟨rfl, ?_, ?_, ?_⟩, rfl⟩
  · exact compute_lt _ _ _ hcb
  · exact hg.2.2 _ _ hul
  · show (extract stream (i * MAX_BLOCK) MAX_BLOCK).length < 65536
    unfold MAX_BLOCK at hul ⊢
    omega

/-- Decoding the serialized blocks of a folder stream, starting after an
already-consumed prefix of the stream, reconstructs the whole stream. -/
lemma decode_loop (codec : ChainCodec) (hg : GoodCodec codec) (stream : Bytes)
    (hb : ∀ b ∈ stream, b < 256) :
    ∀ (k i : Nat) (pre post : Bytes), i + k = numBlocks stream.length →
    decodeFolder codec
      (pre ++ (serializeBlocks ((List.range' i k).map (mkBlock codec stream)) ++ post))
      pre.length k (stream.take (i * MAX_BLOCK)) = .ok stream := by
  intro k
  induction k with
  | zero =>
    intro i pre post hik
    show Except.ok (stream.take (i * MAX_BLOCK)) = Except.ok stream
    have htake : stream.length ≤ i * MAX_BLOCK := by
      unfold numBlocks MAX_BLOCK at hik
      unfold MAX_BLOCK
      omega
    rw [List.take_of_length_le htake]
  | succ k ih =>
    intro i pre post hik
    rw [List.range'_succ, List.map_cons, serializeBlocks_cons, List.append_assoc]
    have hgood := mkBlock_good codec hg stream hb i
    rw [decodeFolder_step codec pre (mkBlock codec stream i)
      (serializeBlocks ((List.range' (i + 1) k).map (mkBlock codec stream)) ++ post)
      k (stream.take (i * MAX_BLOCK)) hgood.1 hgood.2]
    have hdec : stream.take (i * MAX_BLOCK) ++
        codec.decomp (lastN MAX_BLOCK (stream.take (i * MAX_BLOCK)))
          (mkBlock codec stream i).payload =
        stream.take ((i + 1) * MAX_BLOCK) := by
      show stream.take (i * MAX_BLOCK) ++
        codec.decomp (lastN MAX_BLOCK (stream.take (i * MAX_BLOCK)))
          (codec.comp (lastN MAX_BLOCK (stream.take (i * MAX_BLOCK)))
            (extract stream (i * MAX_BLOCK) MAX_BLOCK)) = _
      rw [hg.1 _ _ (fun b hbm => hb b (mem_extract stream _ _ b hbm))]
      show stream.take (i * MAX_BLOCK) ++ (stream.drop (i * MAX_BLOCK)).take MAX_BLOCK = _
      have harith : (i + 1) * MAX_BLOCK = i * MAX_BLOCK + MAX_BLOCK := by ring
      rw [harith, List.take_add]
    rw [hdec]
    have hoff : pre.length + 8 + (mkBlock codec stream i).compSize =
        (pre ++ serializeBlock (mkBlock codec stream i)).length := by
      simp [length_serializeBlock, hgood.1.1]
      omega
    rw [hoff, ← List.append_assoc]
    exact ih (i + 1) (pre ++ serializeBlock (mkBlock codec stream i)) post (by omega)

/-- A block whose stored checksum does not match the checksum recomputed
from its payload and size fields makes the decode loop fail. -/
lemma decodeFolder_fail (codec : ChainCodec) (pre : Bytes) (b : CFDATA)
    (rest : Bytes) (k : Nat) (acc : Bytes)
    (hs : SerBlock b)
    (hbad : compute b.payload b.uncompSize b.compSize ≠ b.checksum) :
    decodeFolder codec (pre ++ (serializeBlock b ++ rest)) pre.length (k + 1) acc =
      .error .integrityError := by
  obtain ⟨hcs, hck, hcsz, husz⟩ := hs
  have hlenraw : (pre ++ (serializeBlock b ++ rest)).length =
      pre.length + 8 + b.payload.length + rest.length := by
    simp [length_serializeBlock]
    omega
  have hr32 : rd32 (pre ++ (serializeBlock b ++ rest)) pre.length = b.checksum := by
    rw [rd32_at_len, rd32_block]
    omega
  have hr16c : rd16 (pre ++ (serializeBlock b ++ rest)) (pre.length + 4) = b.compSize := by
    rw [rd16_append_len, rd16_block_csz]
    omega
  have hr16u : rd16 (pre ++ (serializeBlock b ++ rest)) (pre.length + 6) = b.uncompSize := by
    rw [rd16_append_len, rd16_block_usz]
    omega
  have hpay : extract (pre ++ (serializeBlock b ++ rest)) (pre.length + 8) b.compSize =
      b.payload := by
    rw [extract_append_len, hcs, extract_block_payload]
  simp only [decodeFolder, hr32, hr16c, hr16u, hpay]
  rw [if_neg (by omega), if_neg (by omega), if_pos hbad]

/-- If some block of the serialized chain is corrupt — its stored
checksum does not verify — while every earlier block is well formed,
the whole folder decode fails with an integrity error. -/
lemma decode_loop_err (codec : ChainCodec) :
    ∀ (bsL : List CFDATA) (bad : CFDATA) (bsR : List CFDATA) (pre post acc : Bytes),
    (∀ b ∈ bsL, SerBlock b ∧ compute b.payload b.uncompSize b.compSize = b.checksum) →
    SerBlock bad →
    compute bad.payload bad.uncompSize bad.compSize ≠ bad.checksum →
    decodeFolder codec (pre ++ (serializeBlocks (bsL ++ bad :: bsR) ++ post))
      pre.length (bsL ++ bad :: bsR).length acc = .error .integrityError := by
  intro bsL
  induction bsL with
  | nil =>
    intro bad bsR pre post acc _ hbs hbad
    rw [List.nil_append, serializeBlocks_cons, List.append_assoc, List.length_cons]
    exact decodeFolder_fail codec pre bad _ bsR.length acc hbs hbad
  | cons b bsL ih =>
    intro bad bsR pre post acc hgood hbs hbad
    rw [List.cons_append, serializeBlocks_cons, List.append_assoc, List.length_cons]
    rw [decodeFolder_step codec pre b _ _ acc (hgood b (by simp)).1 (hgood b (by simp)).2]
    have hoff : pre.length + 8 + b.compSize = (pre ++ serializeBlock b).length := by
      simp [length_serializeBlock, (hgood b (by simp)).1.1]
      omega
    rw [hoff, ← List.append_assoc]
    exact ih bad bsR (pre ++ serializeBlock b) post _
      (fun x hx => hgood x (by simp [hx])) hbs hbad

/-! ### File table: serialize/parse round trip -/

lemma serializeFiles_nil : serializeFiles [] = [] := rfl

lemma serializeFiles_cons (e : CFFILE) (es : List CFFILE) :
    serializeFiles (e :: es) = serializeFile e ++ serializeFiles es := by
  simp [serializeFiles]

lemma takeWhile_name (nm r : Bytes) (h : ∀ b ∈ nm, b ≠ 0) :
    (nm ++ 0 :: r).takeWhile (· != 0) = nm := by
  induction nm with
  | nil =>
    rw [List.nil_append, List.takeWhile_cons]
    simp
  | cons b bs ih =>
    rw [List.cons_append, List.takeWhile_cons,
      if_pos (by simpa using h b (by simp)), ih (fun x hx => h x (by simp [hx]))]

lemma rd32_file_usz (e : CFFILE) (rest : Bytes) :
    rd32 (serializeFile e ++ rest) 0 = e.uncompressedSize % 4294967296 := by
  have h : rd32 (serializeFile e ++ rest) 0 =
      e.uncompressedSize % 256 + 256 * (e.uncompressedSize / 256 % 256) +
        65536 * (e.uncompressedSize / 65536 % 256) +
        16777216 * (e.uncompressedSize / 16777216 % 256) := rfl
  omega

lemma rd32_file_foff (e : CFFILE) (rest : Bytes) :
    rd32 (serializeFile e ++ rest) 4 = e.folderOffset % 4294967296 := by
  have h : rd32 (serializeFile e ++ rest) 4 =
      e.folderOffset % 256 + 256 * (e.folderOffset / 256 % 256) +
        65536 * (e.folderOffset / 65536 % 256) +
        16777216 * (e.folderOffset / 16777216 % 256) := rfl
  omega

lemma rd16_file_fidx (e : CFFILE) (rest : Bytes) :
    rd16 (serializeFile e ++ rest) 8 = e.folderIndex % 65536 := by
  have h : rd16 (serializeFile e ++ rest) 8 =
      e.folderIndex % 256 + 256 * (e.folderIndex / 256 % 256) := rfl
  omega

lemma rd16_file_date (e : CFFILE) (rest : Bytes) :
    rd16 (serializeFile e ++ rest) 10 = e.date % 65536 := by
  have h : rd16 (serializeFile e ++ rest) 10 =
      e.date % 256 + 256 * (e.date / 256 % 256) := rfl
  omega

lemma rd16_file_time (e : CFFILE) (rest : Bytes) :
    rd16 (serializeFile e ++ rest) 12 = e.time % 65536 := by
  have h : rd16 (serializeFile e ++ rest) 12 =
      e.time % 256 + 256 * (e.time / 256 % 256) := rfl
  omega

lemma rd16_file_attr (e : CFFILE) (rest : Bytes) :
    rd16 (serializeFile e ++ rest) 14 = e.attributes % 65536 := by
  have h : rd16 (serializeFile e ++ rest) 14 =
      e.attributes % 256 + 256 * (e.attributes / 256 % 256) := rfl
  omega

lemma drop16_file (e : CFFILE) (rest : Bytes) :
    (serializeFile e ++ rest).drop 16 = e.name ++ 0 :: rest := by
  show (e.name ++ [0]) ++ rest = e.name ++ 0 :: rest
  simp

lemma rd16_at_len (pre l : Bytes) : rd16 (pre ++ l) pre.length = rd16 l 0 := by
  have h := rd16_append_len pre l 0
  simpa using h

/-- Parsing the serialized file table after an arbitrary prefix, with an
arbitrary suffix, recovers exactly the serialized entries. -/
lemma parseFiles_rt : ∀ (es : List CFFILE) (pre post : Bytes),
    (∀ e ∈ es, SerEntry e) →
    parseFiles (pre ++ (serializeFiles es ++ post)) pre.length es.length = .ok es := by
  intro es
  induction es with
  | nil => intro pre post _; rfl
  | cons e es ih =>
    intro pre post hse
    obtain ⟨h1, h2, h3, h4, h5, h6, h7⟩ := hse e (by simp)
    rw [serializeFiles_cons, List.append_assoc, List.length_cons]
    have hlenraw : (pre ++ (serializeFile e ++ (serializeFiles es ++ post))).length =
        pre.length + 17 + e.name.length + (serializeFiles es).length + post.length := by
      simp [length_serializeFile]
      omega
    have hname : parseName (pre ++ (serializeFile e ++ (serializeFiles es ++ post)))
        (pre.length + 16) = e.name := by
      unfold parseName
      rw [drop_append_len, drop16_file]
      exact takeWhile_name _ _ h7
    have husz : rd32 (pre ++ (serializeFile e ++ (serializeFiles es ++ post)))
        pre.length = e.uncompressedSize := by
      rw [rd32_at_len, rd32_file_usz]
      omega
    have hfoff : rd32 (pre ++ (serializeFile e ++ (serializeFiles es ++ post)))
        (pre.length + 4) = e.folderOffset := by
      rw [rd32_append_len, rd32_file_foff]
      omega
    have hfidx : rd16 (pre ++ (serializeFile e ++ (serializeFiles es ++ post)))
        (pre.length + 8) = e.folderIndex := by
      rw [rd16_append_len, rd16_file_fidx]
      omega
    have hdate : rd16 (pre ++ (serializeFile e ++ (serializeFiles es ++ post)))
        (pre.length + 10) = e.date := by
      rw [rd16_append_len, rd16_file_date]
      omega
    have htime : rd16 (pre ++ (serializeFile e ++ (serializeFiles es ++ post)))
        (pre.length + 12) = e.time := by
      rw [rd16_append_len, rd16_file_time]
      omega
    have hattr : rd16 (pre ++ (serializeFile e ++ (serializeFiles es ++ post)))
        (pre.length + 14) = e.attributes := by
      rw [rd16_append_len, rd16_file_attr]
      omega
    simp only [parseFiles, hname, husz, hfoff, hfidx, hdate, htime, hattr]
    rw [if_neg (by omega), if_neg (by omega)]
    have hoff : pre.length + 16 + e.name.length + 1 =
        (pre ++ serializeFile e).length := by
      simp [length_serializeFile]
      omega
    rw [hoff, ← List.append_assoc,
      ih (pre ++ serializeFile e) post (fun x hx => hse x (by simp [hx]))]

/-! ### Header and folder record reads -/

lemma load_sig (a b c : Nat) (rest : Bytes) :
    extract (serializeHeader a b c ++ rest) 0 4 = SIGNATURE := rfl

lemma load_v24 (a b c : Nat) (rest : Bytes) :
    (serializeHeader a b c ++ rest).getD 24 0 = 3 := rfl

lemma load_v25 (a b c : Nat) (rest : Bytes) :
    (serializeHeader a b c ++ rest).getD 25 0 = 1 := rfl

set_option maxHeartbeats 1000000 in
lemma load_fc (a b c : Nat) (rest : Bytes) :
    rd16 (serializeHeader a b c ++ rest) 26 = 1 := by
  have h : rd16 (serializeHeader a b c ++ rest) 26 = 1 + 256 * 0 := rfl
  omega

set_option maxHeartbeats 1000000 in
lemma load_filec (a b c : Nat) (rest : Bytes) :
    rd16 (serializeHeader a b c ++ rest) 28 = c % 65536 := by
  have h : rd16 (serializeHeader a b c ++ rest) 28 =
      c % 256 + 256 * (c / 256 % 256) := rfl
  omega

set_option maxHeartbeats 1000000 in
lemma load_ftoff (a b c : Nat) (rest : Bytes) :
    rd32 (serializeHeader a b c ++ rest) 16 = b % 4294967296 := by
  have h : rd32 (serializeHeader a b c ++ rest) 16 =
      b % 256 + 256 * (b / 256 % 256) + 65536 * (b / 65536 % 256) +
        16777216 * (b / 16777216 % 256) := rfl
  omega

set_option maxHeartbeats 2000000 in
lemma rd32_folder_fbo (a b c : Nat) (fo : CFFOLDER) (rest : Bytes) :
    rd32 (serializeHeader a b c ++ (serializeFolder fo ++ rest)) 36 =
      fo.firstBlockOffset % 4294967296 := by
  have h : rd32 (serializeHeader a b c ++ (serializeFolder fo ++ rest)) 36 =
      fo.firstBlockOffset % 256 + 256 * (fo.firstBlockOffset / 256 % 256) +
        65536 * (fo.firstBlockOffset / 65536 % 256) +
        16777216 * (fo.firstBlockOffset / 16777216 % 256) := rfl
  omega

set_option maxHeartbeats 2000000 in
lemma rd16_folder_bc (a b c : Nat) (fo : CFFOLDER) (rest : Bytes) :
    rd16 (serializeHeader a b c ++ (serializeFolder fo ++ rest)) 40 =
      fo.blockCount % 65536 := by
  have h : rd16 (serializeHeader a b c ++ (serializeFolder fo ++ rest)) 40 =
      fo.blockCount % 256 + 256 * (fo.blockCount / 256 % 256) := rfl
  omega

set_option maxHeartbeats 2000000 in
lemma rd16_folder_ct (a b c : Nat) (fo : CFFOLDER) (rest : Bytes) :
    rd16 (serializeHeader a b c ++ (serializeFolder fo ++ rest)) 42 =
      fo.compressionType % 65536 := by
  have h : rd16 (serializeHeader a b c ++ (serializeFolder fo ++ rest)) 42 =
      fo.compressionType % 256 + 256 * (fo.compressionType / 256 % 256) := rfl
  omega

lemma load_folder (a b c : Nat) (fo : CFFOLDER) (rest : Bytes) :
    parseFolders (serializeHeader a b c ++ (serializeFolder fo ++ rest)) 36 1 =
      [⟨fo.firstBlockOffset % 4294967296, fo.blockCount % 65536,
        fo.compressionType % 65536⟩] := by
  show [(⟨rd32 (serializeHeader a b c ++ (serializeFolder fo ++ rest)) 36,
    rd16 (serializeHeader a b c ++ (serializeFolder fo ++ rest)) 40,
    rd16 (serializeHeader a b c ++ (serializeFolder fo ++ rest)) 42⟩ : CFFOLDER)] = _
  rw [rd32_folder_fbo, rd16_folder_bc, rd16_folder_ct]

/-! ### Entry shapes and archive-level load of a flushed archive -/

lemma length_mkBlocks (codec : ChainCodec) (s : Bytes) :
    (mkBlocks codec s).length = numBlocks s.length := by
  simp [mkBlocks]

lemma length_fileEntries (ms : List PendingMember) :
    ∀ off : Nat, (fileEntriesFrom off ms).length = ms.length := by
  induction ms with
  | nil => intro off; rfl
  | cons m ms ih =>
    intro off
    show (fileEntriesFrom (off + m.data.length) ms).length + 1 = ms.length + 1
    rw [ih]

lemma fileEntries_names (ms : List PendingMember) :
    ∀ off : Nat, (fileEntriesFrom off ms).map (fun e => e.name) =
      ms.map (fun m => m.name) := by
  induction ms with
  | nil => intro off; rfl
  | cons m ms ih =>
    intro off
    show m.name :: (fileEntriesFrom (off + m.data.length) ms).map (fun e => e.name) = _
    rw [ih]
    rfl

lemma dataLenSum_cons (m : PendingMember) (ms : List PendingMember) :
    dataLenSum (m :: ms) = m.data.length + dataLenSum ms := by
  simp [dataLenSum]

lemma length_folderStream (ms : List PendingMember) :
    (folderStream ms).length = dataLenSum ms := by
  simp [folderStream, dataLenSum, List.length_flatten, List.map_map]
  rfl

lemma fileEntries_serEntry (ms : List PendingMember) :
    ∀ off : Nat, (∀ m ∈ ms, ∀ b ∈ m.name, b ≠ 0) →
    off + dataLenSum ms < 4294967296 →
    ∀ e ∈ fileEntriesFrom off ms, SerEntry e := by
  induction ms with
  | nil =>
    intro off _ _ e he
    simp [fileEntriesFrom] at he
  | cons m ms ih =>
    intro off hnm hbound e he
    rw [show fileEntriesFrom off (m :: ms) =
      (⟨m.data.length, off, 0, 0, 0, 0, m.name⟩ : CFFILE) ::
        fileEntriesFrom (off + m.data.length) ms from rfl] at he
    rcases List.mem_cons.mp he with h | h
    · subst h
      rw [dataLenSum_cons] at hbound
      exact ⟨show m.data.length < 4294967296 by omega,
        show off < 4294967296 by omega, show (0 : Nat) < 65536 by omega,
        show (0 : Nat) < 65536 by omega, show (0 : Nat) < 65536 by omega,
        show (0 : Nat) < 65536 by omega, hnm m (by simp)⟩
    · rw [dataLenSum_cons] at hbound
      exact ih (off + m.data.length) (fun x hx => hnm x (by simp [hx]))
        (by omega) e h

lemma fileEntries_folderIndex (ms : List PendingMember) :
    ∀ off : Nat, ∀ e ∈ fileEntriesFrom off ms, e.folderIndex = 0 := by
  induction ms with
  | nil =>
    intro off e he
    simp [fileEntriesFrom] at he
  | cons m ms ih =>
    intro off e he
    rw [show fileEntriesFrom off (m :: ms) =
      (⟨m.data.length, off, 0, 0, 0, 0, m.name⟩ : CFFILE) ::
        fileEntriesFrom (off + m.data.length) ms from rfl] at he
    rcases List.mem_cons.mp he with h | h
    · subst h
      rfl
    · exact ih (off + m.data.length) e h

/-- Opening a freshly flushed archive parses back exactly the single
folder record and the file entries that were written. -/
lemma loadArchive_flush (ct : Nat) (ms : List PendingMember)
    (hct : ct = CAB_STORED ∨ ct = CAB_COMPRESSED) (hv : ValidMembers ms) :
    loadArchive (flushArchive ct ms) =
      .ok ⟨[⟨44 + (serializeFiles (fileEntriesFrom 0 ms)).length,
            numBlocks (folderStream ms).length, ct⟩],
           fileEntriesFrom 0 ms, flushArchive ct ms⟩ := by
  obtain ⟨hnm, hdata, hcount, hstream, hfb⟩ := hv
  unfold HEADER_SIZE FOLDER_SIZE at hfb
  have hct16 : ct < 65536 := by
    rcases hct with h | h <;> rw [h] <;> norm_num [CAB_STORED, CAB_COMPRESSED]
  have hnum : numBlocks (folderStream ms).length < 65536 := by
    unfold numBlocks MAX_BLOCK
    omega
  have hflush : flushArchive ct ms =
      serializeHeader
          (44 + (serializeFiles (fileEntriesFrom 0 ms)).length +
            (serializeBlocks (mkBlocks (codecOf ct) (folderStream ms))).length)
          44 ms.length ++
        (serializeFolder
          ⟨44 + (serializeFiles (fileEntriesFrom 0 ms)).length,
            (mkBlocks (codecOf ct) (folderStream ms)).length, ct⟩ ++
          (serializeFiles (fileEntriesFrom 0 ms) ++
            serializeBlocks (mkBlocks (codecOf ct) (folderStream ms)))) := by
    simp only [flushArchive, HEADER_SIZE, FOLDER_SIZE, List.append_assoc]
  rw [hflush]
  have hlenraw : (serializeHeader
        (44 + (serializeFiles (fileEntriesFrom 0 ms)).length +
          (serializeBlocks (mkBlocks (codecOf ct) (folderStream ms))).length)
        44 ms.length ++
      (serializeFolder
        ⟨44 + (serializeFiles (fileEntriesFrom 0 ms)).length,
          (mkBlocks (codecOf ct) (folderStream ms)).length, ct⟩ ++
        (serializeFiles (fileEntriesFrom 0 ms) ++
          serializeBlocks (mkBlocks (codecOf ct) (folderStream ms))))).length =
      44 + (serializeFiles (fileEntriesFrom 0 ms)).length +
        (serializeBlocks (mkBlocks (codecOf ct) (folderStream ms))).length := by
    simp [length_serializeHeader, length_serializeFolder]
    omega
  have hfolders : parseFolders
      (serializeHeader
        (44 + (serializeFiles (fileEntriesFrom 0 ms)).length +
          (serializeBlocks (mkBlocks (codecOf ct) (folderStream ms))).length)
        44 ms.length ++
      (serializeFolder
        ⟨44 + (serializeFiles (fileEntriesFrom 0 ms)).length,
          (mkBlocks (codecOf ct) (folderStream ms)).length, ct⟩ ++
        (serializeFiles (fileEntriesFrom 0 ms) ++
          serializeBlocks (mkBlocks (codecOf ct) (folderStream ms))))) 36 1 =
      [⟨44 + (serializeFiles (fileEntriesFrom 0 ms)).length,
        numBlocks (folderStream ms).length, ct⟩] := by
    rw [load_folder]
    show [(⟨(44 + (serializeFiles (fileEntriesFrom 0 ms)).length) % 4294967296,
      (mkBlocks (codecOf ct) (folderStream ms)).length % 65536,
      ct % 65536⟩ : CFFOLDER)] = _
    rw [Nat.mod_eq_of_lt (by omega), length_mkBlocks,
      Nat.mod_eq_of_lt hnum, Nat.mod_eq_of_lt hct16]
  have hpf : parseFiles
      (serializeHeader
        (44 + (serializeFiles (fileEntriesFrom 0 ms)).length +
          (serializeBlocks (mkBlocks (codecOf ct) (folderStream ms))).length)
        44 ms.length ++
      (serializeFolder
        ⟨44 + (serializeFiles (fileEntriesFrom 0 ms)).length,
          (mkBlocks (codecOf ct) (folderStream ms)).length, ct⟩ ++
        (serializeFiles (fileEntriesFrom 0 ms) ++
          serializeBlocks (mkBlocks (codecOf ct) (folderStream ms))))) 44 ms.length =
      .ok (fileEntriesFrom 0 ms) := by
    have h0 := parseFiles_rt (fileEntriesFrom 0 ms)
      (serializeHeader
        (44 + (serializeFiles (fileEntriesFrom 0 ms)).length +
          (serializeBlocks (mkBlocks (codecOf ct) (folderStream ms))).length)
        44 ms.length ++
      serializeFolder
        ⟨44 + (serializeFiles (fileEntriesFrom 0 ms)).length,
          (mkBlocks (codecOf ct) (folderStream ms)).length, ct⟩)
      (serializeBlocks (mkBlocks (codecOf ct) (folderStream ms)))
      (fileEntries_serEntry ms 0 (fun m hm b hb => (hnm m hm b hb).1)
        (by rw [← length_folderStream]; omega))
    rw [List.append_assoc, length_fileEntries ms 0] at h0
    have hl : (serializeHeader
        (44 + (serializeFiles (fileEntriesFrom 0 ms)).length +
          (serializeBlocks (mkBlocks (codecOf ct) (folderStream ms))).length)
        44 ms.length ++
      serializeFolder
        ⟨44 + (serializeFiles (fileEntriesFrom 0 ms)).length,
          (mkBlocks (codecOf ct) (folderStream ms)).length, ct⟩).length = 44 := by
      simp [length_serializeHeader, length_serializeFolder]
    rw [hl] at h0
    exact h0
  simp only [loadArchive, load_sig, load_v24, load_v25, load_fc, load_filec,
    load_ftoff, Nat.mod_eq_of_lt hcount, HEADER_SIZE, FOLDER_SIZE]
  rw [if_neg (not_not_intro rfl), if_neg (by simp)]
  rw [if_neg (by rw [hlenraw]; omega)]
  rw [hfolders]
  rw [if_pos (by rcases hct with h | h <;> simp [h, CAB_STORED, CAB_COMPRESSED])]
  rw [show (44 : Nat) % 4294967296 = 44 from by norm_num]
  rw [hpf]

/-! ### Finding a member and slicing its range out of the folder stream -/

lemma folderStream_cons (m : PendingMember) (ms : List PendingMember) :
    folderStream (m :: ms) = m.data ++ folderStream ms := by
  simp [folderStream]

lemma folderStream_bytes (ms : List PendingMember)
    (h : ∀ m ∈ ms, ∀ b ∈ m.data, b < 256) :
    ∀ b ∈ folderStream ms, b < 256 := by
  intro b hb
  unfold folderStream at hb
  rcases List.mem_flatten.mp hb with ⟨l, hl, hbl⟩
  rcases List.mem_map.mp hl with ⟨m, hm, hml⟩
  exact h m hm b (hml ▸ hbl)

lemma find_entry : ∀ (ms : List PendingMember) (off i : Nat) (hi : i < ms.length),
    (∀ j, ∀ hj : j < ms.length, j < i → (ms[j]).name ≠ (ms[i]).name) →
    (fileEntriesFrom off ms).find? (fun e => e.name == (ms[i]).name) =
      some ⟨(ms[i]).data.length, off + dataLenSum (ms.take i), 0, 0, 0, 0,
        (ms[i]).name⟩ := by
  intro ms
  induction ms with
  | nil =>
    intro off i hi
    simp at hi
  | cons m ms ih =>
    intro off i hi hfirst
    cases i with
    | zero =>
      show (fileEntriesFrom off (m :: ms)).find? (fun e => e.name == m.name) =
        some ⟨m.data.length, off, 0, 0, 0, 0, m.name⟩
      rw [show fileEntriesFrom off (m :: ms) =
        (⟨m.data.length, off, 0, 0, 0, 0, m.name⟩ : CFFILE) ::
          fileEntriesFrom (off + m.data.length) ms from rfl]
      simp [List.find?_cons]
    | succ j =>
      have hj : j < ms.length := by
        simp at hi
        omega
      show (fileEntriesFrom off (m :: ms)).find? (fun e => e.name == (ms[j]).name) =
        some ⟨(ms[j]).data.length, off + dataLenSum ((m :: ms).take (j + 1)), 0, 0,
          0, 0, (ms[j]).name⟩
      rw [show fileEntriesFrom off (m :: ms) =
        (⟨m.data.length, off, 0, 0, 0, 0, m.name⟩ : CFFILE) ::
          fileEntriesFrom (off + m.data.length) ms from rfl]
      have hne : m.name ≠ (ms[j]).name := by
        have h0 := hfirst 0 (by simp) (by omega)
        simpa using h0
      have hb : ((⟨m.data.length, off, 0, 0, 0, 0, m.name⟩ : CFFILE).name ==
          (ms[j]).name) = false := by
        simpa using hne
      rw [List.find?_cons, hb]
      have hfirst2 : ∀ j', ∀ hj' : j' < ms.length, j' < j →
          (ms[j']).name ≠ (ms[j]).name := by
        intro j' hj' hlt
        have h1 := hfirst (j' + 1) (by simp; omega) (by omega)
        simpa using h1
      rw [ih (off + m.data.length) j hj hfirst2]
      have hoffs : off + m.data.length + dataLenSum (ms.take j) =
          off + dataLenSum ((m :: ms).take (j + 1)) := by
        rw [List.take_succ_cons, dataLenSum_cons]
        omega
      rw [hoffs]

lemma extract_stream : ∀ (ms : List PendingMember) (i : Nat) (hi : i < ms.length),
    extract (folderStream ms) (dataLenSum (ms.take i)) (ms[i]).data.length =
      (ms[i]).data := by
  intro ms
  induction ms with
  | nil =>
    intro i hi
    simp at hi
  | cons m ms ih =>
    intro i hi
    cases i with
    | zero =>
      show extract (folderStream (m :: ms)) (dataLenSum []) m.data.length = m.data
      rw [folderStream_cons, show dataLenSum [] = 0 from rfl]
      unfold extract
      rw [List.drop_zero, List.take_left]
    | succ j =>
      have hj : j < ms.length := by
        simp at hi
        omega
      show extract (folderStream (m :: ms)) (dataLenSum (m :: ms.take j))
        (ms[j]).data.length = (ms[j]).data
      rw [folderStream_cons, dataLenSum_cons]
      have h1 : m.data.length + dataLenSum (ms.take j) =
          m.data.length + dataLenSum (ms.take j) := rfl
      rw [show m.data.length = m.data.length from rfl, extract_append_len]
      exact ih j hj

lemma mkBlocks_range' (codec : ChainCodec) (s : Bytes) :
    mkBlocks codec s = (List.range' 0 (numBlocks s.length)).map (mkBlock codec s) := by
  rw [mkBlocks, List.range_eq_range']

/-- Decoding the single folder of a freshly flushed archive returns the
folder's full uncompressed stream. -/
lemma decodeFolder_flush (ct : Nat) (ms : List PendingMember)
    (hdata : ∀ m ∈ ms, ∀ b ∈ m.data, b < 256) :
    decodeFolder (codecOf ct) (flushArchive ct ms)
      (44 + (serializeFiles (fileEntriesFrom 0 ms)).length)
      (numBlocks (folderStream ms).length) [] = .ok (folderStream ms) := by
  have hb := folderStream_bytes ms hdata
  have hd := decode_loop (codecOf ct) (goodCodec_codecOf ct) (folderStream ms) hb
    (numBlocks (folderStream ms).length) 0
    (serializeHeader
        (44 + (serializeFiles (fileEntriesFrom 0 ms)).length +
          (serializeBlocks (mkBlocks (codecOf ct) (folderStream ms))).length)
        44 ms.length ++
      (serializeFolder
        ⟨44 + (serializeFiles (fileEntriesFrom 0 ms)).length,
          (mkBlocks (codecOf ct) (folderStream ms)).length, ct⟩ ++
        serializeFiles (fileEntriesFrom 0 ms))) [] (by omega)
  rw [List.append_nil, ← mkBlocks_range'] at hd
  have hacc : (folderStream ms).take (0 * MAX_BLOCK) = ([] : Bytes) := by simp
  rw [hacc] at hd
  have hpre : (serializeHeader
        (44 + (serializeFiles (fileEntriesFrom 0 ms)).length +
          (serializeBlocks (mkBlocks (codecOf ct) (folderStream ms))).length)
        44 ms.length ++
      (serializeFolder
        ⟨44 + (serializeFiles (fileEntriesFrom 0 ms)).length,
          (mkBlocks (codecOf ct) (folderStream ms)).length, ct⟩ ++
        serializeFiles (fileEntriesFrom 0 ms))).length =
      44 + (serializeFiles (fileEntriesFrom 0 ms)).length := by
    simp [length_serializeHeader, length_serializeFolder]
    omega
  rw [hpre] at hd
  have hraw : flushArchive ct ms =
      serializeHeader
          (44 + (serializeFiles (fileEntriesFrom 0 ms)).length +
            (serializeBlocks (mkBlocks (codecOf ct) (folderStream ms))).length)
          44 ms.length ++
        (serializeFolder
          ⟨44 + (serializeFiles (fileEntriesFrom 0 ms)).length,
            (mkBlocks (codecOf ct) (folderStream ms)).length, ct⟩ ++
          serializeFiles (fileEntriesFrom 0 ms)) ++
        serializeBlocks (mkBlocks (codecOf ct) (folderStream ms)) := by
    simp only [flushArchive, HEADER_SIZE, FOLDER_SIZE, List.append_assoc]
  rw [hraw]
  exact hd

/-- The spec's write-then-read round trip over a freshly flushed
archive: the member at position `i`, when its name's first occurrence
is at `i`, reads back byte-identical to what was written. -/
lemma readFromBytes_flush (ct : Nat) (ms : List PendingMember) (i : Nat)
    (hct : ct = CAB_STORED ∨ ct = CAB_COMPRESSED) (hv : ValidMembers ms)
    (hi : i < ms.length)
    (hfirst : ∀ j, ∀ hj : j < ms.length, j < i → (ms[j]).name ≠ (ms[i]).name) :
    readFromBytes (flushArchive ct ms) (ms[i]).name = .ok (ms[i]).data := by
  unfold readFromBytes
  rw [loadArchive_flush ct ms hct hv]
  show readMember
    ⟨[⟨44 + (serializeFiles (fileEntriesFrom 0 ms)).length,
        numBlocks (folderStream ms).length, ct⟩],
      fileEntriesFrom 0 ms, flushArchive ct ms⟩ (ms[i]).name = .ok (ms[i]).data
  unfold readMember
  show (match (fileEntriesFrom 0 ms).find? (fun e => e.name == (ms[i]).name) with
    | none => Except.error CabError.notFoundError
    | some e => memberBytes
        ⟨[⟨44 + (serializeFiles (fileEntriesFrom 0 ms)).length,
            numBlocks (folderStream ms).length, ct⟩],
          fileEntriesFrom 0 ms, flushArchive ct ms⟩ e) = .ok (ms[i]).data
  rw [find_entry ms 0 i hi hfirst]
  show memberBytes
    ⟨[⟨44 + (serializeFiles (fileEntriesFrom 0 ms)).length,
        numBlocks (folderStream ms).length, ct⟩],
      fileEntriesFrom 0 ms, flushArchive ct ms⟩
    ⟨(ms[i]).data.length, 0 + dataLenSum (ms.take i), 0, 0, 0, 0, (ms[i]).name⟩ =
    .ok (ms[i]).data
  unfold memberBytes
  show (match decodeFolder (codecOf ct) (flushArchive ct ms)
      (44 + (serializeFiles (fileEntriesFrom 0 ms)).length)
      (numBlocks (folderStream ms).length) [] with
    | .error err => Except.error err
    | .ok stream =>
        .ok (extract stream (0 + dataLenSum (ms.take i)) (ms[i]).data.length)) =
    .ok (ms[i]).data
  rw [decodeFolder_flush ct ms hv.2.1]
  show Except.ok
    (extract (folderStream ms) (0 + dataLenSum (ms.take i)) (ms[i]).data.length) =
    .ok (ms[i]).data
  rw [Nat.zero_add, extract_stream ms i hi]

/-! ### Claims C1, C4-C8 -/

/-- C1: for every member name and byte content, and for both compression
methods (stored, `CAB_STORED`, and chained-deflate, `CAB_COMPRESSED`),
writing the member to an archive and reading it back by name from the
flushed archive image returns content byte-identical to what was
written (the name's first occurrence being the member itself, since
read-by-name returns the first match in table order). -/
theorem claim1_write_read_roundtrip (ct : Nat) (ms : List PendingMember) (i : Nat)
    (hct : ct = CAB_STORED ∨ ct = CAB_COMPRESSED) (hv : ValidMembers ms)
    (hi : i < ms.length)
    (hfirst : ∀ j, ∀ hj : j < ms.length, j < i → (ms[j]).name ≠ (ms[i]).name) :
    readFromBytes (flushArchive ct ms) (ms[i]).name = .ok (ms[i]).data :=
  readFromBytes_flush ct ms i hct hv hi hfirst

/-- Witness for C1: a two-member archive, read back under both methods. -/
theorem claim1_write_read_roundtrip_witness :
    readFromBytes (flushArchive CAB_STORED [⟨[97], [10, 20]⟩, ⟨[98], [30]⟩]) [98] =
        .ok [30] ∧
      readFromBytes (flushArchive CAB_COMPRESSED [⟨[97], [10, 20]⟩, ⟨[98], [30]⟩])
        [98] = .ok [30] := by
  have hfirst : ∀ j, ∀ hj : j < ([⟨[97], [10, 20]⟩, ⟨[98], [30]⟩] :
      List PendingMember).length, j < 1 →
      (([⟨[97], [10, 20]⟩, ⟨[98], [30]⟩] : List PendingMember)[j]).name ≠
        (([⟨[97], [10, 20]⟩, ⟨[98], [30]⟩] : List PendingMember)[1]).name := by
    intro j hj hlt
    have hj0 : j = 0 := by omega
    subst hj0
    show ([97] : Bytes) ≠ [98]
    decide
  have hv : ValidMembers [⟨[97], [10, 20]⟩, ⟨[98], [30]⟩] := by
    unfold ValidMembers
    decide
  exact ⟨claim1_write_read_roundtrip CAB_STORED _ 1 (Or.inl rfl) hv
      (by norm_num) hfirst,
    claim1_write_read_roundtrip CAB_COMPRESSED _ 1 (Or.inr rfl) hv
      (by norm_num) hfirst⟩

/-- C4: append mode reads the archive fully and rebuilds it on flush:
after writing member "x" (bytes [120]) with content "1" ([49]), closing,
reopening in append mode, adding member "y" ([121]) with content "2"
([50]), closing, and reopening in read mode, the name list is
["x", "y"] and both members read back intact — for both methods. -/
theorem claim4_append_rebuild (ct : Nat)
    (hct : ct = CAB_STORED ∨ ct = CAB_COMPRESSED) :
    appendScenario ct = .ok ([[120], [121]], [49], [50]) := by
  rcases hct with h | h <;> subst h <;> rfl

/-- Witness for C4 at the stored method. -/
theorem claim4_append_rebuild_witness :
    appendScenario CAB_STORED = .ok ([[120], [121]], [49], [50]) :=
  claim4_append_rebuild CAB_STORED (Or.inl rfl)

lemma writeAll_state (ms : List PendingMember) :
    ∀ (mo : Mode) (ctc : Nat) (p : List PendingMember) (pa : Option ParsedArchive),
    mo ≠ Mode.read →
    writeAll ⟨mo, ctc, p, pa⟩ ms = ⟨mo, ctc, p ++ ms, pa⟩ := by
  induction ms with
  | nil =>
    intro mo ctc p pa h
    show (⟨mo, ctc, p, pa⟩ : CabFile) = ⟨mo, ctc, p ++ [], pa⟩
    rw [List.append_nil]
  | cons m ms ih =>
    intro mo ctc p pa h
    obtain ⟨nm0, d0⟩ := m
    show writeAll ((CabFile.writestr ⟨mo, ctc, p, pa⟩ nm0 d0).2) ms = _
    have hw : (CabFile.writestr ⟨mo, ctc, p, pa⟩ nm0 d0).2 =
        (⟨mo, ctc, p ++ [(⟨nm0, d0⟩ : PendingMember)], pa⟩ : CabFile) := by
      unfold CabFile.writestr
      rw [if_neg (by exact h)]
    rw [hw]
    have h2 := ih mo ctc (p ++ [(⟨nm0, d0⟩ : PendingMember)]) pa h
    rw [h2]
    simp

/-- C5: `namelist()` returns names in file-table order: for a write
handle, insertion order of the writestr calls; after flushing and
reopening in read mode, the same on-disk order. -/
theorem claim5_namelist_order (ct : Nat) (ms : List PendingMember)
    (hct : ct = CAB_STORED ∨ ct = CAB_COMPRESSED) (hv : ValidMembers ms) :
    (writeAll ⟨Mode.write, ct, [], none⟩ ms).namelist =
        ms.map (fun m => m.name) ∧
      namelistFromBytes (flushArchive ct ms) = .ok (ms.map (fun m => m.name)) := by
  constructor
  · rw [writeAll_state ms Mode.write ct [] none (by simp)]
    show ([] ++ ms).map (fun m : PendingMember => m.name) =
      ms.map (fun m : PendingMember => m.name)
    rw [List.nil_append]
  · unfold namelistFromBytes
    rw [loadArchive_flush ct ms hct hv]
    show Except.ok ((fileEntriesFrom 0 ms).map (fun e : CFFILE => e.name)) = _
    rw [fileEntries_names ms 0]

/-- Witness for C5: writing names "a","b","c" in that order yields
namelist ["a","b","c"], on the handle and after reopen. -/
theorem claim5_namelist_order_witness :
    (writeAll ⟨Mode.write, CAB_COMPRESSED, [], none⟩
        [⟨[97], [1]⟩, ⟨[98], [2]⟩, ⟨[99], [3]⟩]).namelist =
        [[97], [98], [99]] ∧
      namelistFromBytes (flushArchive CAB_COMPRESSED
        [⟨[97], [1]⟩, ⟨[98], [2]⟩, ⟨[99], [3]⟩]) = .ok [[97], [98], [99]] :=
  claim5_namelist_order CAB_COMPRESSED [⟨[97], [1]⟩, ⟨[98], [2]⟩, ⟨[99], [3]⟩]
    (Or.inr rfl) (by unfold ValidMembers; decide)

/-- C6: opening an archive whose leading 4-byte signature does not match
the expected constant fails with the corrupt-archive format error —
regardless of every other byte, so before any other header field is
trusted — in both opening modes that touch the file, and no handle is
produced. -/
theorem claim6_bad_signature (bytes : Bytes) (ct : Nat) (m : Mode)
    (h : extract bytes 0 4 ≠ SIGNATURE) (hm : m = Mode.read ∨ m = Mode.append) :
    CabFile.openArchive bytes m ct = .error .formatError := by
  have hl : loadArchive bytes = .error .formatError := by
    unfold loadArchive
    rw [if_pos h]
  rcases hm with h1 | h1 <;> subst h1 <;> simp [CabFile.openArchive, hl]

/-- Witness for C6. -/
theorem claim6_bad_signature_witness :
    CabFile.openArchive [0, 1, 2, 3, 4, 5] Mode.read 0 = .error .formatError :=
  claim6_bad_signature [0, 1, 2, 3, 4, 5] 0 Mode.read (by decide) (Or.inl rfl)

/-- C7: every write operation (writestr, or write from a source file)
on a handle opened in read mode returns a mode error — not a silent
no-op — and returns the handle unchanged, so the per-call error does
not invalidate the handle. -/
theorem claim7_write_on_read_handle (cf : CabFile) (nm d fd arc : Bytes)
    (h : cf.mode = Mode.read) :
    cf.writestr nm d = (.error .modeError, cf) ∧
      cf.write fd arc = (.error .modeError, cf) := by
  constructor <;> simp [CabFile.writestr, CabFile.write, h]

/-- Witness for C7. -/
theorem claim7_write_on_read_handle_witness :
    (⟨Mode.read, 0, [], none⟩ : CabFile).writestr [97] [1] =
        (.error .modeError, (⟨Mode.read, 0, [], none⟩ : CabFile)) ∧
      (⟨Mode.read, 0, [], none⟩ : CabFile).write [2] [98] =
        (.error .modeError, (⟨Mode.read, 0, [], none⟩ : CabFile)) :=
  claim7_write_on_read_handle ⟨Mode.read, 0, [], none⟩ [97] [1] [2] [98] rfl

/-- C8: the mode strings the CabFile constructor accepts are exactly
"w", "r" and "a", mapping to write, read and append mode. -/
theorem claim8_mode_strings :
    modeOfString "w" = some Mode.write ∧ modeOfString "r" = some Mode.read ∧
      modeOfString "a" = some Mode.append ∧
      ∀ s m, modeOfString s = some m → s = "w" ∨ s = "r" ∨ s = "a" := by
  refine ⟨rfl, rfl, rfl, ?_⟩
  intro s m h
  unfold modeOfString at h
  split_ifs at h with h1 h2 h3
  · right
    left
    exact h1
  · left
    exact h2
  · right
    right
    exact h3

/-- Witness for C8's exhaustiveness direction. -/
theorem claim8_mode_strings_witness : "a" = "w" ∨ "a" = "r" ∨ "a" = "a" :=
  claim8_mode_strings.2.2.2 "a" Mode.append rfl

/-! ### Claim C10: the legacy test script -/

/-- C10: the legacy test script first inserts the sibling test/
directory at the front of sys.path; then, if importing run_all_tests
fails with ImportError it terminates with exit status 1, otherwise it
terminates with the status run_all_tests.main() returned — in both
cases with the path entry already inserted. -/
theorem claim10_legacy_script (d : String) (p : List String) (r : Nat) :
    runLegacyTestScript d p .importError = ⟨(d ++ "/test") :: p, 1⟩ ∧
      runLegacyTestScript d p (.mainReturns r) = ⟨(d ++ "/test") :: p, r⟩ :=
  ⟨rfl, rfl⟩

/-! ### UTF-8: encode/decode round trip (claim C9) -/

lemma char_toNat_valid (c : Char) :
    c.toNat < 55296 ∨ (57343 < c.toNat ∧ c.toNat < 1114112) :=
  c.valid

lemma char_toNat_lt (c : Char) : c.toNat < 1114112 := by
  rcases char_toNat_valid c with h | h <;> omega

lemma encodeChar_lt (n : Nat) (hn : n < 1114112) : ∀ b ∈ encodeChar n, b < 256 := by
  unfold encodeChar
  split_ifs with h1 h2 h3 <;> intro b hb <;> simp at hb <;> omega

lemma utf8Bytes_lt (s : String) : ∀ b ∈ utf8Bytes s, b < 256 := by
  intro b hb
  unfold utf8Bytes at hb
  rcases List.mem_flatMap.mp hb with ⟨c, hc, hbc⟩
  exact encodeChar_lt c.toNat (char_toNat_lt c) b hbc

lemma decodeUtf8_encode : ∀ cs : List Char,
    decodeUtf8 (cs.flatMap (fun c => encodeChar c.toNat)) =
      some (cs.map Char.toNat) := by
  intro cs
  induction cs with
  | nil =>
    rw [decodeUtf8.eq_def]
    rfl
  | cons c cs ih =>
    rw [List.flatMap_cons, List.map_cons]
    have hval := char_toNat_valid c
    rcases Nat.lt_or_ge c.toNat 128 with h1 | h1
    · rw [show encodeChar c.toNat = [c.toNat] from by
        unfold encodeChar; rw [if_pos h1]]
      show decodeUtf8 (c.toNat :: cs.flatMap (fun c => encodeChar c.toNat)) = _
      rw [decodeUtf8.eq_def]
      show (if c.toNat < 128 then
        (decodeUtf8 (cs.flatMap (fun c => encodeChar c.toNat))).map
          (fun t => c.toNat :: t) else _) = _
      rw [if_pos h1, ih]
      rfl
    · rcases Nat.lt_or_ge c.toNat 2048 with h2 | h2
      · rw [show encodeChar c.toNat =
          [192 + c.toNat / 64, 128 + c.toNat % 64] from by
            unfold encodeChar; rw [if_neg (by omega), if_pos h2]]
        show decodeUtf8 ((192 + c.toNat / 64) :: (128 + c.toNat % 64) ::
          cs.flatMap (fun c => encodeChar c.toNat)) = _
        rw [decodeUtf8.eq_def]
        show (if 192 + c.toNat / 64 < 128 then _
          else if 192 + c.toNat / 64 < 194 then none
          else if 192 + c.toNat / 64 < 224 then
            if 128 ≤ 128 + c.toNat % 64 ∧ 128 + c.toNat % 64 < 192 then
              (decodeUtf8 (cs.flatMap (fun c => encodeChar c.toNat))).map
                (fun t => ((192 + c.toNat / 64 - 192) * 64 +
                  (128 + c.toNat % 64 - 128)) :: t)
            else none
          else _) = _
        rw [if_neg (by omega), if_neg (by omega), if_pos (by omega),
          if_pos (by constructor <;> omega)]
        have hn : (192 + c.toNat / 64 - 192) * 64 + (128 + c.toNat % 64 - 128) =
            c.toNat := by omega
        rw [hn, ih]
        rfl
      · rcases Nat.lt_or_ge c.toNat 65536 with h3 | h3
        · rw [show encodeChar c.toNat = [224 + c.toNat / 4096,
            128 + c.toNat / 64 % 64, 128 + c.toNat % 64] from by
              unfold encodeChar
              rw [if_neg (by omega), if_neg (by omega), if_pos h3]]
          show decodeUtf8 ((224 + c.toNat / 4096) :: (128 + c.toNat / 64 % 64) ::
            (128 + c.toNat % 64) :: cs.flatMap (fun c => encodeChar c.toNat)) = _
          rw [decodeUtf8.eq_def]
          show (if 224 + c.toNat / 4096 < 128 then _
            else if 224 + c.toNat / 4096 < 194 then none
            else if 224 + c.toNat / 4096 < 224 then _
            else if 224 + c.toNat / 4096 < 240 then
              if (128 ≤ 128 + c.toNat / 64 % 64 ∧ 128 + c.toNat / 64 % 64 < 192) ∧
                  (128 ≤ 128 + c.toNat % 64 ∧ 128 + c.toNat % 64 < 192) ∧
                  2048 ≤ (224 + c.toNat / 4096 - 224) * 4096 +
                    (128 + c.toNat / 64 % 64 - 128) * 64 +
                    (128 + c.toNat % 64 - 128) ∧
                  ((224 + c.toNat / 4096 - 224) * 4096 +
                    (128 + c.toNat / 64 % 64 - 128) * 64 +
                    (128 + c.toNat % 64 - 128) < 55296 ∨
                   57344 ≤ (224 + c.toNat / 4096 - 224) * 4096 +
                    (128 + c.toNat / 64 % 64 - 128) * 64 +
                    (128 + c.toNat % 64 - 128)) then
                (decodeUtf8 (cs.flatMap (fun c => encodeChar c.toNat))).map
                  (fun t => ((224 + c.toNat / 4096 - 224) * 4096 +
                    (128 + c.toNat / 64 % 64 - 128) * 64 +
                    (128 + c.toNat % 64 - 128)) :: t)
              else none
            else _) = _
          have hn : (224 + c.toNat / 4096 - 224) * 4096 +
              (128 + c.toNat / 64 % 64 - 128) * 64 + (128 + c.toNat % 64 - 128) =
              c.toNat := by omega
          rw [hn]
          rw [if_neg (by omega), if_neg (by omega), if_neg (by omega),
            if_pos (by omega)]
          rw [if_pos (by
            refine ⟨⟨by omega, by omega⟩, ⟨by omega, by omega⟩, by omega, ?_⟩
            rcases hval with hv | hv
            · exact Or.inl (by omega)
            · exact Or.inr (by omega))]
          rw [ih]
          rfl
        · have hlt : c.toNat < 1114112 := char_toNat_lt c
          rw [show encodeChar c.toNat = [240 + c.toNat / 262144,
            128 + c.toNat / 4096 % 64, 128 + c.toNat / 64 % 64,
            128 + c.toNat % 64] from by
              unfold encodeChar
              rw [if_neg (by omega), if_neg (by omega), if_neg (by omega)]]
          show decodeUtf8 ((240 + c.toNat / 262144) ::
            (128 + c.toNat / 4096 % 64) :: (128 + c.toNat / 64 % 64) ::
            (128 + c.toNat % 64) :: cs.flatMap (fun c => encodeChar c.toNat)) = _
          rw [decodeUtf8.eq_def]
          show (if 240 + c.toNat / 262144 < 128 then _
            else if 240 + c.toNat / 262144 < 194 then none
            else if 240 + c.toNat / 262144 < 224 then _
            else if 240 + c.toNat / 262144 < 240 then _
            else if 240 + c.toNat / 262144 < 245 then
              if (128 ≤ 128 + c.toNat / 4096 % 64 ∧
                    128 + c.toNat / 4096 % 64 < 192) ∧
                  (128 ≤ 128 + c.toNat / 64 % 64 ∧ 128 + c.toNat / 64 % 64 < 192) ∧
                  (128 ≤ 128 + c.toNat % 64 ∧ 128 + c.toNat % 64 < 192) ∧
                  65536 ≤ (240 + c.toNat / 262144 - 240) * 262144 +
                    (128 + c.toNat / 4096 % 64 - 128) * 4096 +
                    (128 + c.toNat / 64 % 64 - 128) * 64 +
                    (128 + c.toNat % 64 - 128) ∧
                  (240 + c.toNat / 262144 - 240) * 262144 +
                    (128 + c.toNat / 4096 % 64 - 128) * 4096 +
                    (128 + c.toNat / 64 % 64 - 128) * 64 +
                    (128 + c.toNat % 64 - 128) < 1114112 then
                (decodeUtf8 (cs.flatMap (fun c => encodeChar c.toNat))).map
                  (fun t => ((240 + c.toNat / 262144 - 240) * 262144 +
                    (128 + c.toNat / 4096 % 64 - 128) * 4096 +
                    (128 + c.toNat / 64 % 64 - 128) * 64 +
                    (128 + c.toNat % 64 - 128)) :: t)
              else none
            else none) = _
          have hn : (240 + c.toNat / 262144 - 240) * 262144 +
              (128 + c.toNat / 4096 % 64 - 128) * 4096 +
              (128 + c.toNat / 64 % 64 - 128) * 64 + (128 + c.toNat % 64 - 128) =
              c.toNat := by omega
          rw [hn]
          rw [if_neg (by omega), if_neg (by omega), if_neg (by omega),
            if_neg (by omega), if_pos (by omega)]
          rw [if_pos (by
            exact ⟨⟨by omega, by omega⟩, ⟨by omega, by omega⟩,
              ⟨by omega, by omega⟩, by omega, by omega⟩)]
          rw [ih]
          rfl

lemma map_char_toNat_inj : ∀ (l1 l2 : List Char),
    l1.map Char.toNat = l2.map Char.toNat → l1 = l2 := by
  intro l1
  induction l1 with
  | nil =>
    intro l2 h
    cases l2 with
    | nil => rfl
    | cons c cs => simp at h
  | cons c cs ih =>
    intro l2 h
    cases l2 with
    | nil => simp at h
    | cons d ds =>
      rw [List.map_cons, List.map_cons] at h
      rcases List.cons_eq_cons.mp h with ⟨hh, ht⟩
      rw [ih ds ht, Char.ext (UInt32.ext hh)]

/-- C9: writestr accepts a text payload: writing a string stores its
UTF-8 bytes as the member's content; reading the member back by name
returns exactly those bytes, and UTF-8 decoding them recovers exactly
the original string's scalar values (and hence, UTF-8 encoding being
injective on strings, the original string). -/
theorem claim9_writestr_text (ct : Nat) (nm : Bytes) (s : String)
    (hct : ct = CAB_STORED ∨ ct = CAB_COMPRESSED)
    (hnm : ∀ b ∈ nm, b ≠ 0 ∧ b < 256)
    (hlen : (utf8Bytes s).length ≤ 2147450880)
    (hfb : 44 + (serializeFiles (fileEntriesFrom 0 [⟨nm, utf8Bytes s⟩])).length <
      4294967296) :
    ((CabFile.writestrText ⟨Mode.write, ct, [], none⟩ nm s).2).close =
        some (flushArchive ct [⟨nm, utf8Bytes s⟩]) ∧
      readFromBytes (flushArchive ct [⟨nm, utf8Bytes s⟩]) nm = .ok (utf8Bytes s) ∧
      decodeUtf8 (utf8Bytes s) = some (s.data.map Char.toNat) ∧
      ∀ t : String, t.data.map Char.toNat = s.data.map Char.toNat → t = s := by
  have hv : ValidMembers [⟨nm, utf8Bytes s⟩] := by
    refine ⟨?_, ?_, by norm_num, ?_, ?_⟩
    · intro m hm b hb
      rw [List.mem_singleton.mp hm] at hb
      exact hnm b hb
    · intro m hm b hb
      rw [List.mem_singleton.mp hm] at hb
      exact utf8Bytes_lt s b hb
    · show (utf8Bytes s ++ []).length ≤ 2147450880
      rw [List.append_nil]
      exact hlen
    · show HEADER_SIZE + FOLDER_SIZE + _ < 4294967296
      unfold HEADER_SIZE FOLDER_SIZE
      omega
  refine ⟨rfl, ?_, decodeUtf8_encode s.data, fun t ht => String.ext
    (map_char_toNat_inj t.data s.data ht)⟩
  have h := readFromBytes_flush ct [⟨nm, utf8Bytes s⟩] 0 hct hv (by norm_num)
    (fun j hj hlt => absurd hlt (by omega))
  exact h

/-- Witness for C9 on a concrete non-ASCII string. -/
theorem claim9_writestr_text_witness :
    ((CabFile.writestrText ⟨Mode.write, CAB_COMPRESSED, [], none⟩ [110] "aé").2).close =
        some (flushArchive CAB_COMPRESSED [⟨[110], utf8Bytes "aé"⟩]) ∧
      readFromBytes (flushArchive CAB_COMPRESSED [⟨[110], utf8Bytes "aé"⟩]) [110] =
        .ok (utf8Bytes "aé") ∧
      decodeUtf8 (utf8Bytes "aé") = some ("aé".data.map Char.toNat) ∧
      ∀ t : String, t.data.map Char.toNat = "aé".data.map Char.toNat → t = "aé" :=
  claim9_writestr_text CAB_COMPRESSED [110] "aé" (Or.inr rfl) (by decide)
    (by decide) (by decide)

/-! ### Claim C3: flipping a payload byte breaks the read -/

lemma set_append_right (s t : Bytes) (n v : Nat) (h : s.length ≤ n) :
    (s ++ t).set n v = s ++ t.set (n - s.length) v := by
  rw [List.set_append, if_neg (by omega)]

/-- Loading any archive image made of a well-formed header, one folder
record, a file table and an arbitrary data-block region parses back the
folder and the entries. -/
lemma loadArchive_pre (a : Nat) (fo : CFFOLDER) (es : List CFFILE) (post : Bytes)
    (hfo1 : fo.firstBlockOffset < 4294967296) (hfo2 : fo.blockCount < 65536)
    (hfo3 : fo.compressionType = CAB_STORED ∨ fo.compressionType = CAB_COMPRESSED)
    (hes : ∀ e ∈ es, SerEntry e) (hcnt : es.length < 65536) :
    loadArchive (serializeHeader a 44 es.length ++
        (serializeFolder fo ++ (serializeFiles es ++ post))) =
      .ok ⟨[fo], es,
        serializeHeader a 44 es.length ++
          (serializeFolder fo ++ (serializeFiles es ++ post))⟩ := by
  have hct16 : fo.compressionType < 65536 := by
    rcases hfo3 with h | h <;> rw [h] <;> norm_num [CAB_STORED, CAB_COMPRESSED]
  have hlenraw : (serializeHeader a 44 es.length ++
      (serializeFolder fo ++ (serializeFiles es ++ post))).length =
      44 + (serializeFiles es).length + post.length := by
    simp [length_serializeHeader, length_serializeFolder]
    omega
  have hfolders : parseFolders (serializeHeader a 44 es.length ++
      (serializeFolder fo ++ (serializeFiles es ++ post))) 36 1 = [fo] := by
    rw [load_folder]
    rw [Nat.mod_eq_of_lt hfo1, Nat.mod_eq_of_lt hfo2, Nat.mod_eq_of_lt hct16]
  have hpf : parseFiles (serializeHeader a 44 es.length ++
      (serializeFolder fo ++ (serializeFiles es ++ post))) 44 es.length =
      .ok es := by
    have h0 := parseFiles_rt es
      (serializeHeader a 44 es.length ++ serializeFolder fo) post hes
    rw [List.append_assoc] at h0
    have hl : (serializeHeader a 44 es.length ++ serializeFolder fo).length = 44 := by
      simp [length_serializeHeader, length_serializeFolder]
    rw [hl] at h0
    exact h0
  simp only [loadArchive, load_sig, load_v24, load_v25, load_fc, load_filec,
    load_ftoff, Nat.mod_eq_of_lt hcnt, HEADER_SIZE, FOLDER_SIZE]
  rw [if_neg (not_not_intro rfl), if_neg (by simp)]
  rw [if_neg (by rw [hlenraw]; omega)]
  rw [hfolders]
  rw [if_pos (by rcases hfo3 with h | h <;>
    simp [h, CAB_STORED, CAB_COMPRESSED])]
  rw [show (44 : Nat) % 4294967296 = 44 from by norm_num]
  rw [hpf]

lemma set_block_payload (b : CFDATA) (rest : Bytes) (i v : Nat)
    (hi : i < b.payload.length) :
    (serializeBlock b ++ rest).set (8 + i) v =
      serializeBlock ⟨b.checksum, b.compSize, b.uncompSize, b.payload.set i v⟩ ++
        rest := by
  have h8 : serializeBlock b ++ rest =
      (le32 b.checksum ++ (le16 b.compSize ++ le16 b.uncompSize)) ++
        (b.payload ++ rest) := by
    simp [serializeBlock, List.append_assoc]
  rw [h8, set_append_right _ _ _ _ (by simp [length_le32, length_le16])]
  have hidx : 8 + i - (le32 b.checksum ++ (le16 b.compSize ++ le16 b.uncompSize)).length
      = i := by
    simp [length_le32, length_le16]
  rw [hidx, List.set_append, if_pos hi]
  simp [serializeBlock, List.append_assoc]

lemma mkBlocks_good_mem (codec : ChainCodec) (hg : GoodCodec codec) (stream : Bytes)
    (hb : ∀ x ∈ stream, x < 256) :
    ∀ b ∈ mkBlocks codec stream, SerBlock b ∧
      compute b.payload b.uncompSize b.compSize = b.checksum ∧
      ∀ x ∈ b.payload, x < 256 := by
  intro b hbm
  unfold mkBlocks at hbm
  rcases List.mem_map.mp hbm with ⟨n, hn, hbn⟩
  subst hbn
  refine ⟨(mkBlock_good codec hg stream hb n).1, (mkBlock_good codec hg stream hb n).2, ?_⟩
  show ∀ x ∈ codec.comp (lastN MAX_BLOCK (stream.take (n * MAX_BLOCK)))
    (extract stream (n * MAX_BLOCK) MAX_BLOCK), x < 256
  exact hg.2.1 _ _ (fun x hx => hb x (mem_extract stream _ _ x hx))

lemma set_append_add (s t : Bytes) (n v : Nat) :
    (s ++ t).set (s.length + n) v = s ++ t.set n v := by
  rw [set_append_right _ _ _ _ (by omega), Nat.add_sub_cancel_left]

lemma flushArchive_expand (ct : Nat) (ms : List PendingMember) :
    flushArchive ct ms =
      serializeHeader (44 + (serializeFiles (fileEntriesFrom 0 ms)).length +
          (serializeBlocks (mkBlocks (codecOf ct) (folderStream ms))).length)
        44 ms.length ++
      (serializeFolder ⟨44 + (serializeFiles (fileEntriesFrom 0 ms)).length,
          (mkBlocks (codecOf ct) (folderStream ms)).length, ct⟩ ++
        (serializeFiles (fileEntriesFrom 0 ms) ++
          serializeBlocks (mkBlocks (codecOf ct) (folderStream ms)))) := by
  simp only [flushArchive, HEADER_SIZE, FOLDER_SIZE, List.append_assoc]

lemma blocks_decomp (bs : List CFDATA) (j : Nat) (blk : CFDATA)
    (h : bs[j]? = some blk) :
    bs = bs.take j ++ blk :: bs.drop (j + 1) := by
  rcases List.getElem?_eq_some.mp h with ⟨hj, hval⟩
  conv_lhs => rw [← List.take_append_drop j bs]
  rw [List.drop_eq_getElem_cons hj, hval]

lemma find?_entries_some (ms : List PendingMember) (k : Nat) (hk : k < ms.length) :
    ∃ e, (fileEntriesFrom 0 ms).find? (fun e => e.name == (ms[k]).name) = some e ∧
      e ∈ fileEntriesFrom 0 ms := by
  have hlen : k < (fileEntriesFrom 0 ms).length := by
    rw [length_fileEntries ms 0]
    exact hk
  have hname : ((fileEntriesFrom 0 ms)[k]).name = (ms[k]).name := by
    have hm := fileEntries_names ms 0
    have h1 : ((fileEntriesFrom 0 ms).map (fun e => e.name))[k]? =
        (ms.map (fun m => m.name))[k]? := by rw [hm]
    rw [List.getElem?_map, List.getElem?_map, List.getElem?_eq_getElem hlen,
      List.getElem?_eq_getElem hk] at h1
    simpa using h1
  have hsome : ((fileEntriesFrom 0 ms).find?
      (fun e => e.name == (ms[k]).name)).isSome = true := by
    rw [List.find?_isSome]
    exact ⟨(fileEntriesFrom 0 ms)[k], List.getElem_mem hlen, by simp [hname]⟩
  rcases Option.isSome_iff_exists.mp hsome with ⟨e, he⟩
  exact ⟨e, he, List.mem_of_find?_eq_some he⟩

/-! ### Claim C3: payload corruption is detected on read -/

lemma readFromBytes_int_err (pa : ParsedArchive) (bytes nm : Bytes)
    (e : CFFILE) (fo : CFFOLDER)
    (hload : loadArchive bytes = .ok pa)
    (hfind : pa.files.find? (fun x => x.name == nm) = some e)
    (hfo : pa.folders[e.folderIndex]? = some fo)
    (hdec : decodeFolder (codecOf fo.compressionType) pa.raw
      fo.firstBlockOffset fo.blockCount [] = .error .integrityError) :
    readFromBytes bytes nm = .error .integrityError := by
  unfold readFromBytes
  rw [hload]
  show readMember pa nm = Except.error CabError.integrityError
  unfold readMember
  rw [hfind]
  show memberBytes pa e = Except.error CabError.integrityError
  unfold memberBytes
  rw [hfo]
  show (match decodeFolder (codecOf fo.compressionType) pa.raw
      fo.firstBlockOffset fo.blockCount [] with
    | .error err => Except.error err
    | .ok stream => Except.ok (extract stream e.folderOffset e.uncompressedSize)) =
    Except.error CabError.integrityError
  rw [hdec]

set_option maxHeartbeats 1000000 in
/-- C3: flipping any single byte inside any data block's compressed
payload of a flushed archive causes a subsequent read of any member —
the folder being shared by all members — to fail with the integrity
error, for both compression methods: the checksum recomputed over the
corrupted payload no longer matches the stored one. -/
theorem claim3_payload_flip (ct : Nat) (ms : List PendingMember) (j i v k : Nat)
    (blk : CFDATA)
    (hct : ct = CAB_STORED ∨ ct = CAB_COMPRESSED) (hv : ValidMembers ms)
    (hblk : (mkBlocks (codecOf ct) (folderStream ms))[j]? = some blk)
    (hi : i < blk.payload.length) (hv256 : v < 256)
    (hne : v ≠ blk.payload.getD i 0) (hk : k < ms.length) :
    readFromBytes ((flushArchive ct ms).set (blockRegionPos ct ms j i) v)
      (ms[k]).name = .error .integrityError := by
  obtain ⟨hnm, hdata, hcount, hstream, hfb⟩ := hv
  unfold HEADER_SIZE FOLDER_SIZE at hfb
  have hgood := mkBlocks_good_mem (codecOf ct) (goodCodec_codecOf ct)
    (folderStream ms) (folderStream_bytes ms hdata)
  obtain ⟨hj, hjval⟩ := List.getElem?_eq_some.mp hblk
  have hblkmem : blk ∈ mkBlocks (codecOf ct) (folderStream ms) := by
    rw [← hjval]
    exact List.getElem_mem hj
  obtain ⟨hsblk, hcsum, hpay256⟩ := hgood blk hblkmem
  have hnum : (mkBlocks (codecOf ct) (folderStream ms)).length < 65536 := by
    rw [length_mkBlocks]
    unfold numBlocks MAX_BLOCK
    omega
  have himg : (flushArchive ct ms).set (blockRegionPos ct ms j i) v =
      serializeHeader (44 + (serializeFiles (fileEntriesFrom 0 ms)).length +
          (serializeBlocks (mkBlocks (codecOf ct) (folderStream ms))).length)
        44 ms.length ++
      (serializeFolder ⟨44 + (serializeFiles (fileEntriesFrom 0 ms)).length,
          (mkBlocks (codecOf ct) (folderStream ms)).length, ct⟩ ++
        (serializeFiles (fileEntriesFrom 0 ms) ++
          (serializeBlocks ((mkBlocks (codecOf ct) (folderStream ms)).take j) ++
            (serializeBlock ⟨blk.checksum, blk.compSize, blk.uncompSize,
                blk.payload.set i v⟩ ++
              serializeBlocks
                ((mkBlocks (codecOf ct) (folderStream ms)).drop (j + 1)))))) := by
    rw [flushArchive_expand]
    have hdecomp : serializeBlocks (mkBlocks (codecOf ct) (folderStream ms)) =
        serializeBlocks ((mkBlocks (codecOf ct) (folderStream ms)).take j) ++
          (serializeBlock blk ++
            serializeBlocks
              ((mkBlocks (codecOf ct) (folderStream ms)).drop (j + 1))) := by
      conv_lhs => rw [blocks_decomp _ j blk hblk]
      rw [serializeBlocks_append, serializeBlocks_cons]
    nth_rewrite 2 [hdecomp]
    have hpos : blockRegionPos ct ms j i =
        (serializeHeader (44 + (serializeFiles (fileEntriesFrom 0 ms)).length +
            (serializeBlocks (mkBlocks (codecOf ct) (folderStream ms))).length)
          44 ms.length).length +
        ((serializeFolder ⟨44 + (serializeFiles (fileEntriesFrom 0 ms)).length,
            (mkBlocks (codecOf ct) (folderStream ms)).length, ct⟩).length +
          ((serializeFiles (fileEntriesFrom 0 ms)).length +
            ((serializeBlocks
                ((mkBlocks (codecOf ct) (folderStream ms)).take j)).length +
              (8 + i)))) := by
      rw [length_serializeHeader, length_serializeFolder]
      unfold blockRegionPos HEADER_SIZE FOLDER_SIZE
      omega
    rw [hpos, set_append_add, set_append_add, set_append_add, set_append_add,
      set_block_payload blk _ i v hi]
  have hes : ∀ e ∈ fileEntriesFrom 0 ms, SerEntry e :=
    fileEntries_serEntry ms 0 (fun m hm b hb => (hnm m hm b hb).1)
      (by rw [← length_folderStream]; omega)
  have hload := loadArchive_pre
    (44 + (serializeFiles (fileEntriesFrom 0 ms)).length +
      (serializeBlocks (mkBlocks (codecOf ct) (folderStream ms))).length)
    ⟨44 + (serializeFiles (fileEntriesFrom 0 ms)).length,
      (mkBlocks (codecOf ct) (folderStream ms)).length, ct⟩
    (fileEntriesFrom 0 ms)
    (serializeBlocks ((mkBlocks (codecOf ct) (folderStream ms)).take j) ++
      (serializeBlock ⟨blk.checksum, blk.compSize, blk.uncompSize,
          blk.payload.set i v⟩ ++
        serializeBlocks ((mkBlocks (codecOf ct) (folderStream ms)).drop (j + 1))))
    (by show 44 + (serializeFiles (fileEntriesFrom 0 ms)).length < 4294967296
        omega)
    (by show (mkBlocks (codecOf ct) (folderStream ms)).length < 65536
        exact hnum)
    hct hes
    (by rw [length_fileEntries ms 0]; exact hcount)
  rw [length_fileEntries ms 0] at hload
  have hsblk2 : SerBlock ⟨blk.checksum, blk.compSize, blk.uncompSize,
      blk.payload.set i v⟩ := by
    obtain ⟨h1, h2, h3, h4⟩ := hsblk
    exact ⟨by show blk.compSize = (blk.payload.set i v).length
              rw [List.length_set]
              exact h1,
      h2, h3, h4⟩
  have hbad : compute (blk.payload.set i v) blk.uncompSize blk.compSize ≠
      blk.checksum := by
    rw [← hcsum]
    exact compute_set_ne blk.payload i v blk.uncompSize blk.compSize hi
      hpay256 hv256 hne
  have hgoodL : ∀ b ∈ (mkBlocks (codecOf ct) (folderStream ms)).take j,
      SerBlock b ∧ compute b.payload b.uncompSize b.compSize = b.checksum :=
    fun b hb => ⟨(hgood b (List.mem_of_mem_take hb)).1,
      (hgood b (List.mem_of_mem_take hb)).2.1⟩
  have hdec := decode_loop_err (codecOf ct)
    ((mkBlocks (codecOf ct) (folderStream ms)).take j)
    ⟨blk.checksum, blk.compSize, blk.uncompSize, blk.payload.set i v⟩
    ((mkBlocks (codecOf ct) (folderStream ms)).drop (j + 1))
    (serializeHeader (44 + (serializeFiles (fileEntriesFrom 0 ms)).length +
          (serializeBlocks (mkBlocks (codecOf ct) (folderStream ms))).length)
        44 ms.length ++
      (serializeFolder ⟨44 + (serializeFiles (fileEntriesFrom 0 ms)).length,
          (mkBlocks (codecOf ct) (folderStream ms)).length, ct⟩ ++
        serializeFiles (fileEntriesFrom 0 ms)))
    [] [] hgoodL hsblk2 hbad
  rw [List.append_nil, serializeBlocks_append, serializeBlocks_cons] at hdec
  have hplen : (serializeHeader
        (44 + (serializeFiles (fileEntriesFrom 0 ms)).length +
          (serializeBlocks (mkBlocks (codecOf ct) (folderStream ms))).length)
        44 ms.length ++
      (serializeFolder ⟨44 + (serializeFiles (fileEntriesFrom 0 ms)).length,
          (mkBlocks (codecOf ct) (folderStream ms)).length, ct⟩ ++
        serializeFiles (fileEntriesFrom 0 ms))).length =
      44 + (serializeFiles (fileEntriesFrom 0 ms)).length := by
    simp [length_serializeHeader, length_serializeFolder]
    omega
  rw [hplen] at hdec
  have hlen2 : ((mkBlocks (codecOf ct) (folderStream ms)).take j ++
      (⟨blk.checksum, blk.compSize, blk.uncompSize,
          blk.payload.set i v⟩ : CFDATA) ::
        (mkBlocks (codecOf ct) (folderStream ms)).drop (j + 1)).length =
      (mkBlocks (codecOf ct) (folderStream ms)).length := by
    simp
    omega
  rw [hlen2] at hdec
  rw [List.append_assoc, List.append_assoc] at hdec
  rw [himg]
  obtain ⟨e, hfind, hemem⟩ := find?_entries_some ms k hk
  have hfidx := fileEntries_folderIndex ms 0 e hemem
  exact readFromBytes_int_err
    ⟨[⟨44 + (serializeFiles (fileEntriesFrom 0 ms)).length,
        (mkBlocks (codecOf ct) (folderStream ms)).length, ct⟩],
      fileEntriesFrom 0 ms,
      serializeHeader (44 + (serializeFiles (fileEntriesFrom 0 ms)).length +
          (serializeBlocks (mkBlocks (codecOf ct) (folderStream ms))).length)
        44 ms.length ++
      (serializeFolder ⟨44 + (serializeFiles (fileEntriesFrom 0 ms)).length,
          (mkBlocks (codecOf ct) (folderStream ms)).length, ct⟩ ++
        (serializeFiles (fileEntriesFrom 0 ms) ++
          (serializeBlocks ((mkBlocks (codecOf ct) (folderStream ms)).take j) ++
            (serializeBlock ⟨blk.checksum, blk.compSize, blk.uncompSize,
                blk.payload.set i v⟩ ++
              serializeBlocks
                ((mkBlocks (codecOf ct) (folderStream ms)).drop (j + 1))))))⟩
    (serializeHeader (44 + (serializeFiles (fileEntriesFrom 0 ms)).length +
          (serializeBlocks (mkBlocks (codecOf ct) (folderStream ms))).length)
        44 ms.length ++
      (serializeFolder ⟨44 + (serializeFiles (fileEntriesFrom 0 ms)).length,
          (mkBlocks (codecOf ct) (folderStream ms)).length, ct⟩ ++
        (serializeFiles (fileEntriesFrom 0 ms) ++
          (serializeBlocks ((mkBlocks (codecOf ct) (folderStream ms)).take j) ++
            (serializeBlock ⟨blk.checksum, blk.compSize, blk.uncompSize,
                blk.payload.set i v⟩ ++
              serializeBlocks
                ((mkBlocks (codecOf ct) (folderStream ms)).drop (j + 1)))))))
    (ms[k]).name e
    ⟨44 + (serializeFiles (fileEntriesFrom 0 ms)).length,
      (mkBlocks (codecOf ct) (folderStream ms)).length, ct⟩
    hload hfind (by rw [hfidx]; rfl) hdec

/-- Witness for C3: a one-member stored archive whose single data
block's payload byte is flipped from 49 to 7; reading the member back
reports the integrity error. -/
theorem claim3_payload_flip_witness :
    readFromBytes ((flushArchive CAB_STORED [⟨[120], [49]⟩]).set
        (blockRegionPos CAB_STORED [⟨[120], [49]⟩] 0 0) 7)
      [120] = .error .integrityError :=
  claim3_payload_flip CAB_STORED [⟨[120], [49]⟩] 0 0 7 0
    ⟨compute [49] 1 1, 1, 1, [49]⟩ (Or.inl rfl)
    (by unfold ValidMembers; decide) (by rfl) (by decide) (by decide)
    (by decide) (by decide)
